import Mathlib

/-!
Verification of the Structural Document Graph Engine of the `webscraper`
repository.  The definitions below are a shallow embedding of
`Scraper/dom_graph_parser.py` (graph construction),
`Scraper/graph_embedder.py` (context assembly and retrieval) and
`Scraper/visualized_rag.py` (retrieval with score normalization).
Python strings are Lean `String`s, BeautifulSoup tag trees are the
inductive `HNode`, the networkx `MultiDiGraph` is an ordered node
association list plus an ordered edge list, and float scores are
modelled as rationals.
-/

namespace Scraper

/-- A parsed HTML node: either a tag element (name, attributes, children)
or a text node (a BeautifulSoup `NavigableString`). -/
inductive HNode where
  | elem : String → List (String × String) → List HNode → HNode
  | text : String → HNode

/-- `s.startswith(pre)`, computed on the character lists (kernel-reducible). -/
def strStartsWith (s pre : String) : Bool := pre.toList.isPrefixOf s.toList

/-- `s.endswith(post)`, computed on the character lists. -/
def strEndsWith (s post : String) : Bool := post.toList.isSuffixOf s.toList

/-- Python `s[:n]` on code points. -/
def strTake (s : String) (n : Nat) : String := String.mk (s.toList.take n)

/-- Drop the first `n` code points of a string. -/
def strDrop (s : String) (n : Nat) : String := String.mk (s.toList.drop n)

/-- Worker for `splitOnChar`: pieces between separator occurrences. -/
def splitOnCharAux (sep : Char) : List Char → List Char → List String
  | [], acc => [String.mk acc.reverse]
  | c :: rest, acc =>
    if c == sep then String.mk acc.reverse :: splitOnCharAux sep rest []
    else splitOnCharAux sep rest (c :: acc)

/-- Python `s.split(sep)` for a one-character separator (empty pieces kept). -/
def splitOnChar (sep : Char) (s : String) : List String := splitOnCharAux sep s.toList []

/-- Worker for `splitPred`. -/
def splitPredAux (p : Char → Bool) : List Char → List Char → List String
  | [], acc => [String.mk acc.reverse]
  | c :: rest, acc =>
    if p c then String.mk acc.reverse :: splitPredAux p rest []
    else splitPredAux p rest (c :: acc)

/-- Split at every character satisfying `p`, keeping empty pieces. -/
def splitPred (p : Char → Bool) (s : String) : List String := splitPredAux p s.toList []

/-- Concatenation of a list of strings. -/
def strJoin (l : List String) : String := l.foldl (fun a b => a ++ b) ""

/-- `sep.join(l)`. -/
def strIntercalate (sep : String) : List String → String
  | [] => ""
  | x :: xs => xs.foldl (fun acc y => acc ++ sep ++ y) x

/-- Whitespace characters recognised by Python's `str.split()` (ASCII part). -/
def isPyWs (c : Char) : Bool :=
  c == ' ' || c == '\t' || c == '\n' || c == '\r' || c == '\x0b' || c == '\x0c'

/-- Python `s.split()`: split on whitespace runs, dropping empty pieces. -/
def pysplit (s : String) : List String :=
  (splitPred isPyWs s).filter (fun p => p ≠ "")

/-- `clean_text` from `dom_graph_parser.py`: `" ".join(s.split())`. -/
def clean_text (s : String) : String :=
  strIntercalate " " (pysplit s)

/-- Python `s.strip()` (whitespace on both ends). -/
def pystrip (s : String) : String :=
  String.mk (((s.toList.dropWhile isPyWs).reverse.dropWhile isPyWs).reverse)

/-- Python `s.split("#")[0]` — strip a fragment suffix. -/
def frag_strip (s : String) : String := (splitOnChar '#' s).headD ""

/-- Python `s.split("/")[-1]` — last path segment. -/
def last_segment (s : String) : String := (splitOnChar '/' s).getLastD ""

/-- Python `s.split(":")[0]` — the scheme token of a `mailto:`/`tel:` target. -/
def scheme_token (s : String) : String := (splitOnChar ':' s).headD ""

/-- The element name of a node (`[document]` is an ordinary element here). -/
def hname : HNode → String
  | HNode.elem n _ _ => n
  | HNode.text _ => ""

/-- Attribute lookup, Python `element["x"]` / `element.has_attr("x")`. -/
def getAttr (el : HNode) (key : String) : Option String :=
  match el with
  | HNode.text _ => none
  | HNode.elem _ attrs _ => (attrs.find? (fun p => p.1 == key)).map (fun p => p.2)

/-- The children list of an element (empty for text nodes). -/
def childrenOf : HNode → List HNode
  | HNode.elem _ _ cs => cs
  | HNode.text _ => []

/-- Python truthiness of a BeautifulSoup object: a `Tag` is always
truthy (`Tag.__bool__` is unconditional), a `NavigableString` is truthy
iff non-empty. -/
def truthy : HNode → Bool
  | HNode.elem _ _ _ => true
  | HNode.text s => s ≠ ""

mutual
/-- The strings `get_text()` collects, in document order: all descendant
strings except those inside `script`/`style` elements — `html.parser`
(bs4 >= 4.9) stores those as `Script`/`Stylesheet` strings, which
`get_text()` skips by default. -/
def hstrings : HNode → List String
  | HNode.text s => [s]
  | HNode.elem n _ cs =>
    if n == "script" || n == "style" then [] else hstringsList cs
def hstringsList : List HNode → List String
  | [] => []
  | c :: rest => hstrings c ++ hstringsList rest
end

/-- BeautifulSoup `element.get_text()`: concatenation of the element's
descendant strings, excluding `script`/`style` contents (stored as
`Script`/`Stylesheet`, skipped by default). -/
def get_text (el : HNode) : String := strJoin (hstrings el)

/-- BeautifulSoup `element.get_text(strip=True)`: each string stripped,
empty pieces dropped, remainder concatenated. -/
def get_text_strip (el : HNode) : String :=
  strJoin (((hstrings el).map pystrip).filter (fun p => p ≠ ""))

mutual
/-- Whether a single subtree contains a pre-order match for
BeautifulSoup `find(name)`: the node itself, else its descendants.
Also returns the ancestor chain of the hit (immediate parent first). -/
def findInNode (name : String) (anc : List HNode) : HNode → Option (HNode × List HNode)
  | HNode.text _ => none
  | HNode.elem n a cs =>
    if n == name then some (HNode.elem n a cs, anc)
    else findInList name (HNode.elem n a cs :: anc) cs
/-- `findInNode` over a list of subtrees, in document order. -/
def findInList (name : String) (anc : List HNode) : List HNode → Option (HNode × List HNode)
  | [] => none
  | c :: rest =>
    match findInNode name anc c with
    | some r => some r
    | none => findInList name anc rest
end

/-- `soup.find(name)`: first pre-order element descendant with this name,
with its ancestor chain ending at the soup node itself. -/
def find_with_anc (name : String) (soup : HNode) : Option (HNode × List HNode) :=
  findInList name [soup] (childrenOf soup)

/-- `soup.find(name)` without the ancestor bookkeeping. -/
def find_tag (name : String) (soup : HNode) : Option HNode :=
  (find_with_anc name soup).map (fun r => r.1)

mutual
/-- Structural equality of parse-tree nodes (BeautifulSoup compares tags
by name, attributes and contents, not by object identity). -/
def beqHNode : HNode → HNode → Bool
  | HNode.text a, HNode.text b => a == b
  | HNode.elem n1 a1 c1, HNode.elem n2 a2 c2 => n1 == n2 && a1 == a2 && beqHNodeList c1 c2
  | _, _ => false
def beqHNodeList : List HNode → List HNode → Bool
  | [], [] => true
  | x :: xs, y :: ys => beqHNode x y && beqHNodeList xs ys
  | _, _ => false
end

instance : BEq HNode := ⟨beqHNode⟩

/-- `parent.find_all(name, recursive=False)`: the direct element children
of `parent` carrying the given tag name. -/
def same_tag_children (name : String) (parent : HNode) : List HNode :=
  (childrenOf parent).filter (fun c =>
    match c with
    | HNode.elem n _ _ => n == name
    | HNode.text _ => false)

/-- Python `list.index(x)`: index of the first (structurally) equal entry. -/
def idxOfHNode (x : HNode) : List HNode → Option Nat
  | [] => none
  | y :: ys => if beqHNode x y then some 0 else (idxOfHNode x ys).map (· + 1)

/-- The ancestor walk of `get_simple_xpath`: climb the parent chain,
stopping at the `[document]` soup node, or defensively when the current
node is not among its parent's same-tag children; prepend a
`name[index]` segment (1-based index) at each level. -/
def xpath_segments : HNode → List HNode → List String → List String
  | _, [], path => path
  | current, parent :: rest, path =>
    if hname parent == "[document]" then path
    else
      match idxOfHNode current (same_tag_children (hname current) parent) with
      | none => path
      | some i =>
        xpath_segments parent rest ((hname current ++ "[" ++ toString (i + 1) ++ "]") :: path)

/-- `get_simple_xpath` from `dom_graph_parser.py`, with the parent chain
of the element passed explicitly (immediate parent first). -/
def get_simple_xpath (el : HNode) (ancestors : List HNode) : String :=
  "/" ++ strIntercalate "/" (xpath_segments el ancestors [])

mutual
/-- First pre-order element with tag `img` carrying an `alt` attribute,
in a single subtree (the node itself, else its descendants). -/
def findImgAltNode : HNode → Option HNode
  | HNode.text _ => none
  | HNode.elem n a cs =>
    if n == "img" && ((a.find? (fun p => p.1 == "alt")).isSome) then some (HNode.elem n a cs)
    else findImgAltList cs
/-- `findImgAltNode` over a list of subtrees, in document order. -/
def findImgAltList : List HNode → Option HNode
  | [] => none
  | c :: rest =>
    match findImgAltNode c with
    | some r => some r
    | none => findImgAltList rest
end

/-- `a_tag.find("img", alt=True)`: first pre-order element descendant
named `img` that carries an `alt` attribute. -/
def find_img_alt (el : HNode) : Option HNode :=
  findImgAltList (childrenOf el)

/-- `extract_link_text` from `dom_graph_parser.py`: visible text
(stripped, truncated to 50); if empty, the `alt` of the first descendant
`img` carrying an `alt` attribute, truncated to 50 (a found tag is
always truthy, so `if img:` always fires); else the literal `"Link"`. -/
def extract_link_text (a : HNode) : String :=
  let txt := get_text_strip a
  if txt ≠ "" then strTake txt 50
  else
    match find_img_alt a with
    | some img => strTake ((getAttr img "alt").getD "") 50
    | none => "Link"

/-- Attributes a graph node can carry (`none` = the key is absent). -/
structure NodeAttrs where
  type : Option String := none
  tag : Option String := none
  xpath : Option String := none
  page : Option String := none
  depth : Option Nat := none
  text_snippet : Option String := none
  title : Option String := none
  title_text : Option String := none
  heading_text : Option String := none
  full_text : Option String := none
  url : Option String := none
  label : Option String := none
  hostname : Option String := none
  data_type : Option String := none
  value : Option String := none
deriving DecidableEq, Repr

/-- A directed multigraph edge with its attribute dict. -/
structure Edge where
  src : String
  tgt : String
  relation : String
  anchor : Option String := none
deriving DecidableEq, Repr

/-- The networkx `MultiDiGraph`: nodes as an ordered association list
(insertion order), edges as an ordered list (insertion order). -/
structure Graph where
  nodes : List (String × NodeAttrs) := []
  edges : List Edge := []
deriving DecidableEq, Repr

/-- Attribute dict of a node, if present. -/
def getNode (g : Graph) (id : String) : Option NodeAttrs :=
  (g.nodes.find? (fun p => p.1 == id)).map (fun p => p.2)

/-- Python `id in G`. -/
def hasNode (g : Graph) (id : String) : Bool := (getNode g id).isSome

/-- Dict update: keys provided by the new attrs overwrite, others persist. -/
def mergeAttrs (old new : NodeAttrs) : NodeAttrs :=
  { type := new.type <|> old.type
    tag := new.tag <|> old.tag
    xpath := new.xpath <|> old.xpath
    page := new.page <|> old.page
    depth := new.depth <|> old.depth
    text_snippet := new.text_snippet <|> old.text_snippet
    title := new.title <|> old.title
    title_text := new.title_text <|> old.title_text
    heading_text := new.heading_text <|> old.heading_text
    full_text := new.full_text <|> old.full_text
    url := new.url <|> old.url
    label := new.label <|> old.label
    hostname := new.hostname <|> old.hostname
    data_type := new.data_type <|> old.data_type
    value := new.value <|> old.value }

/-- Merge attributes into the entry of an existing node id. -/
def updateNodes (ns : List (String × NodeAttrs)) (id : String) (attrs : NodeAttrs) :
    List (String × NodeAttrs) :=
  ns.map (fun p => if p.1 == id then (p.1, mergeAttrs p.2 attrs) else p)

/-- networkx `G.add_node(id, **attrs)`: append a fresh node or update the
attribute dict of an existing one. -/
def add_node (g : Graph) (id : String) (attrs : NodeAttrs) : Graph :=
  if hasNode g id then { g with nodes := updateNodes g.nodes id attrs }
  else { g with nodes := g.nodes ++ [(id, attrs)] }

/-- networkx `G.add_edge(u, v, **attrs)`: auto-create missing endpoints
with empty attribute dicts, then append the edge. -/
def add_edge (g : Graph) (u v rel : String) (anchor : Option String) : Graph :=
  let g1 := if hasNode g u then g else { g with nodes := g.nodes ++ [(u, {})] }
  let g2 := if hasNode g1 v then g1 else { g1 with nodes := g1.nodes ++ [(v, {})] }
  { g2 with edges := g2.edges ++ [{ src := u, tgt := v, relation := rel, anchor := anchor }] }

/-- The per-page, per-tag counters of the Identity Allocator. -/
abbrev Counters := List ((String × String) × Nat)

/-- Current counter value (`setdefault(tag, 0)` semantics). -/
def counterGet (cs : Counters) (k : String × String) : Nat :=
  ((cs.find? (fun p => p.1 == k)).map (fun p => p.2)).getD 0

/-- Store a counter value. -/
def counterSet (cs : Counters) (k : String × String) (v : Nat) : Counters :=
  if (cs.find? (fun p => p.1 == k)).isSome then
    cs.map (fun p => if p.1 == k then (p.1, v) else p)
  else cs ++ [(k, v)]

/-- The id string `"{page}_{tag}_{idx}"`. -/
def mkDomId (page tag : String) (idx : Nat) : String :=
  page ++ "_" ++ tag ++ "_" ++ toString idx

/-- `get_node_id` from `dom_graph_parser.py`: return the stable per-page,
per-tag id and bump the counter. -/
def get_node_id (page tag : String) (cs : Counters) : String × Counters :=
  let idx := counterGet cs (page, tag)
  (mkDomId page tag idx, counterSet cs (page, tag) (idx + 1))

/-- Builder state: the graph under construction plus the id counters. -/
structure BState where
  g : Graph := {}
  counters : Counters := []
deriving Repr

/-- Tags skipped entirely by the traversal. -/
def skipTags : List String := ["script", "style", "meta", "link", "br", "hr"]

/-- The `node_attrs` dict built for a visited element in `build_dom_tree`,
including the tag-specific type refinement. -/
def mkNodeAttrs (el : HNode) (ancestors : List HNode) (page : String) (depth : Nat) :
    NodeAttrs :=
  match el with
  | HNode.text _ => {}
  | HNode.elem name _ _ =>
    let text_content := clean_text (get_text el)
    let base : NodeAttrs :=
      { type := some "DOM_Element"
        tag := some name
        xpath := some (get_simple_xpath el ancestors)
        page := some page
        depth := some depth
        text_snippet := some (strTake text_content 150) }
    if name == "title" then
      { base with type := some "Page_Title", title_text := some text_content }
    else if name == "h1" || name == "h2" || name == "h3" || name == "h4" then
      { base with type := some "Section_Heading", heading_text := some text_content }
    else if name == "p" && text_content ≠ "" then
      { base with type := some "Paragraph", full_text := some text_content }
    else base

/-- `re.sub(r"^https?://", "", href).split("/")[0]`. -/
def hostnameOf (href : String) : String :=
  let stripped :=
    if strStartsWith href "https://" then strDrop href 8
    else if strStartsWith href "http://" then strDrop href 7
    else href
  (splitOnChar '/' stripped).headD ""

/-- The `<a>`-handling block of `build_dom_tree`: strip the fragment,
then classify the target as known page / external / mailto-tel / other. -/
def process_anchor (known_pages : List String) (el : HNode) (node_id page_name : String)
    (g : Graph) : Graph :=
  if hname el == "a" then
    match getAttr el "href" with
    | none => g
    | some hrefRaw =>
      let href := frag_strip hrefRaw
      let link_txt := extract_link_text el
      let target := last_segment href
      if target ∈ known_pages then
        add_edge g node_id target "LINKS_TO_PAGE" (some link_txt)
      else if strStartsWith href "http" || strStartsWith href "https" then
        let external_node_id := href
        let g1 :=
          if hasNode g external_node_id then g
          else
            add_node g external_node_id
              { type := some "External_Page"
                url := some href
                label := some link_txt
                hostname := some (hostnameOf href) }
        add_edge g1 node_id external_node_id "LINKS_TO_EXTERNAL_PAGE" (some link_txt)
      else if strStartsWith href "mailto:" || strStartsWith href "tel:" then
        let data_node_id := page_name ++ "_DATA_" ++ toString g.nodes.length
        let g1 :=
          add_node g data_node_id
            { type := some "Data_Link"
              data_type := some (scheme_token href)
              value := some href
              label := some link_txt }
        add_edge g1 node_id data_node_id "CONTAINS_DATA" (some link_txt)
      else g
  else g

mutual
/-- `build_dom_tree` from `dom_graph_parser.py`.  Text nodes and
skip-listed tags return the state unchanged; every other element gets a
fresh id, its attribute dict, a `CONTAINS` edge from its parent, its
anchor handling, and then its children processed in document order. -/
def build_dom_tree (known_pages : List String) (el : HNode) (ancestors : List HNode)
    (parent_node_id page_name : String) (depth : Nat) (st : BState) : BState :=
  match el with
  | HNode.text _ => st
  | HNode.elem name _ children =>
    if name ∈ skipTags then st
    else
      let alloc := get_node_id page_name name st.counters
      let node_id := alloc.1
      let g1 := add_node st.g node_id (mkNodeAttrs el ancestors page_name depth)
      let g2 :=
        if parent_node_id ≠ "" then add_edge g1 parent_node_id node_id "CONTAINS" none
        else g1
      let g3 := process_anchor known_pages el node_id page_name g2
      build_children known_pages children (el :: ancestors) node_id page_name (depth + 1)
        { g := g3, counters := alloc.2 }
/-- The child loop of `build_dom_tree` (only `Tag` children recurse). -/
def build_children (known_pages : List String) (cs : List HNode) (ancestors : List HNode)
    (parent_node_id page_name : String) (depth : Nat) (st : BState) : BState :=
  match cs with
  | [] => st
  | c :: rest =>
    let st1 := build_dom_tree known_pages c ancestors parent_node_id page_name depth st
    build_children known_pages rest ancestors parent_node_id page_name depth st1
end

/-- BeautifulSoup `Tag.string`: the single string child, recursively
through a single tag child, else `None`. -/
def tag_string : HNode → Option String
  | HNode.elem _ _ [HNode.text s] => some s
  | HNode.elem _ _ [HNode.elem n a cs] => tag_string (HNode.elem n a cs)
  | _ => none

/-- `soup.title.string.strip() if soup.title else filename`; any found
title tag is truthy, so its `.string` is stripped; a title whose
`.string` is `None` (e.g. a childless title) is excluded by
well-formedness, because Python raises `AttributeError` on `.strip()`
there. -/
def page_title (filename : String) (soup : HNode) : String :=
  match find_tag "title" soup with
  | none => filename
  | some t => pystrip ((tag_string t).getD "")

/-- `soup.find("html") or soup.find("body") or soup`: a found tag is
always truthy, so the first hit wins regardless of its contents; the
ancestor chain of the chosen root is kept for xpath computation. -/
def select_root (soup : HNode) : HNode × List HNode :=
  match find_with_anc "html" soup with
  | some r => r
  | none =>
    match find_with_anc "body" soup with
    | some r => r
    | none => (soup, [])

/-- One iteration of the page loop of `dom_graph_parser.py`: create the
`Page_File` node, pick the structural root, and walk it. -/
def build_page (known_pages : List String) (st : BState) (page : String × HNode) : BState :=
  let filename := page.1
  let soup := page.2
  let g1 := add_node st.g filename { type := some "Page_File", title := some (page_title filename soup) }
  let root := select_root soup
  build_dom_tree known_pages root.1 root.2 filename filename 0 { st with g := g1 }

/-- The whole construction: all `.html` files are known pages, each page
is processed in input order starting from the empty multigraph. -/
def build_graph (pages : List (String × HNode)) : BState :=
  let known_pages := pages.map (fun p => p.1)
  pages.foldl (build_page known_pages) {}

/-! ## Context assembly (`graph_embedder.py`) -/

/-- `LINK_RELATIONS` from `graph_embedder.py`. -/
def LINK_RELATIONS : List String := ["LINKS_TO_PAGE", "LINKS_TO_EXTERNAL_PAGE"]

/-- `G.out_edges(node, data=True)` as the chronological edge list. -/
def out_edges (g : Graph) (node : String) : List Edge :=
  g.edges.filter (fun e => e.src == node)

/-- `G.in_edges(node, data=True)` as the chronological edge list. -/
def in_edges (g : Graph) (node : String) : List Edge :=
  g.edges.filter (fun e => e.tgt == node)

/-- `node_has_link_edges`: the node participates in some link relation,
outgoing or incoming. -/
def node_has_link_edges (g : Graph) (node : String) : Bool :=
  (out_edges g node).any (fun e => e.relation ∈ LINK_RELATIONS) ||
  (in_edges g node).any (fun e => e.relation ∈ LINK_RELATIONS)

/-- `should_embed` from `graph_embedder.py`. -/
def should_embed (g : Graph) (node : String) (attrs : NodeAttrs) : Bool :=
  let t := attrs.type.getD ""
  if t == "Page_File" || t == "External_Page" then false
  else if t == "DOM_Element" then node_has_link_edges g node
  else true

/-- `get_page_name_from_node_id`: `node_id.split("_", 1)[0]`. -/
def get_page_name_from_node_id (node_id : String) : String :=
  (splitOnChar '_' node_id).headD node_id

/-- `get_page_file_node`: prefix lookup, then fallback search by title. -/
def get_page_file_node (g : Graph) (page_name : String) : Option String :=
  match getNode g page_name with
  | some a =>
    if a.type == some "Page_File" then some page_name
    else
      ((g.nodes.find? (fun p => p.2.type == some "Page_File" && p.2.title == some page_name)).map
        (fun p => p.1))
  | none =>
    ((g.nodes.find? (fun p => p.2.type == some "Page_File" && p.2.title == some page_name)).map
      (fun p => p.1))

/-- The `CONTAINS`-predecessors of a node, in edge order.  The walk below
only ever takes the head, and in graphs built by `build_graph` a node has
at most one `CONTAINS`-predecessor, so the chronological order used here
agrees with the networkx adjacency order. -/
def containsPreds (g : Graph) (current : String) : List String :=
  ((g.edges.filter (fun e => e.tgt == current && e.relation == "CONTAINS")).map
    (fun e => e.src))

/-- The heading line recorded for an ancestor by `get_heading_context`:
only `Section_Heading` ancestors with a non-empty `heading_text` produce
a line, with `"h?"` substituted for a missing tag. -/
def heading_line (g : Graph) (parent : String) : Option String :=
  let pdata := (getNode g parent).getD {}
  if pdata.type == some "Section_Heading" then
    let txt := pdata.heading_text.getD ""
    if txt ≠ "" then some ((pdata.tag.getD "h?") ++ ": " ++ txt) else none
  else none

/-- The `while True` loop of `get_heading_context`.  The fuel only makes
the recursion structural: each iteration either stops or pushes a parent
that is not yet in `visited`, every parent is the source of some edge, so
`g.edges.length + 1` iterations always suffice. -/
def hcLoop (g : Graph) : Nat → String → List String → List String → List String
  | 0, _, _, acc => acc
  | fuel + 1, current, visited, acc =>
    match containsPreds g current with
    | [] => acc
    | parent :: _ =>
      if parent ∈ visited then acc
      else
        let acc' :=
          match heading_line g parent with
          | some l => acc ++ [l]
          | none => acc
        hcLoop g fuel parent (parent :: visited) acc'

/-- `get_heading_context` from `graph_embedder.py`: climb `CONTAINS`
edges collecting heading lines, then reverse (outermost first). -/
def get_heading_context (g : Graph) (node : String) : List String :=
  (hcLoop g (g.edges.length + 1) node [] []).reverse

/-- `get_link_context`: one descriptive line per outgoing link edge. -/
def get_link_context (g : Graph) (node : String) : List String :=
  (out_edges g node).filterMap (fun e =>
    let anchor := e.anchor.getD ""
    if e.relation == "LINKS_TO_PAGE" then
      let target_title := ((getNode g e.tgt).bind (fun a => a.title)).getD e.tgt
      some ("- link to page '" ++ target_title ++ "' (file: " ++ e.tgt ++
        "), anchor text: '" ++ anchor ++ "'")
    else if e.relation == "LINKS_TO_EXTERNAL_PAGE" then
      let tdata := (getNode g e.tgt).getD {}
      let url := tdata.url.getD e.tgt
      let hostname := tdata.hostname.getD ""
      let lbl0 := tdata.label.getD ""
      let label := if lbl0 ≠ "" then lbl0 else if hostname ≠ "" then hostname else url
      some ("- link to external page '" ++ label ++ "' (" ++ url ++
        "), anchor text: '" ++ anchor ++ "'")
    else none)

/-- `build_node_text` from `graph_embedder.py`: page header, node header,
heading hierarchy, outgoing links, then a type-specific content block. -/
def build_node_text (g : Graph) (node : String) (attrs : NodeAttrs) : String :=
  let node_type := attrs.type.getD ""
  let tag := attrs.tag.getD ""
  let page_name := get_page_name_from_node_id node
  let page_file_node := get_page_file_node g page_name
  let header1 :=
    match page_file_node with
    | some pf =>
      let page_title := ((getNode g pf).bind (fun a => a.title)).getD pf
      ["Page: " ++ page_title ++ " (file: " ++ pf ++ ")"]
    | none => ["Page ID: " ++ page_name]
  let header2 := header1 ++ ["Node ID: " ++ node]
  let header3 := header2 ++ (if tag ≠ "" then ["DOM tag: <" ++ tag ++ ">"] else [])
  let header4 := header3 ++ ["Node type: " ++ node_type]
  let headings := get_heading_context g node
  let header5 :=
    header4 ++ (if headings ≠ [] then "Heading hierarchy:" :: headings.map (fun h => "  - " ++ h) else [])
  let main_text :=
    if node_type == "Paragraph" then attrs.full_text.getD ""
    else if node_type == "Section_Heading" || node_type == "Page_Title" then
      let ht := attrs.heading_text.getD ""
      if ht ≠ "" then ht else attrs.title_text.getD ""
    else if node_type == "Data_Link" then "Data link: " ++ attrs.value.getD ""
    else if node_type == "PAGE_ROOT" then "Root DOM node for this page."
    else if node_type == "DOM_Element" then "DOM element containing important links."
    else ""
  let link_lines := get_link_context g node
  let header6 :=
    header5 ++ (if link_lines ≠ [] then "Outgoing links:" :: link_lines else [])
  let text_parts :=
    [strIntercalate "\n" header6] ++
      (if main_text ≠ "" then ["\nContent:\n" ++ main_text] else [])
  pystrip (strIntercalate "\n" text_parts)

/-- One document prepared for embedding: id, text and display metadata. -/
structure Doc where
  id : String
  text : String
  mtype : Option String
  mtag : Option String
  page_name : String
deriving DecidableEq, Repr

/-- The document-preparation loop of `graph_embedder.py`: keep the nodes
passing `should_embed` whose context text is non-empty after stripping. -/
def docsOf (g : Graph) : List Doc :=
  g.nodes.filterMap (fun p =>
    if should_embed g p.1 p.2 then
      let text := build_node_text g p.1 p.2
      if pystrip text ≠ "" then
        some { id := p.1, text := text, mtype := p.2.type, mtag := p.2.tag,
               page_name := get_page_name_from_node_id p.1 }
      else none
    else none)

/-! ## Retrieval (`graph_embedder.py` `rag_query`,
`visualized_rag.py` `find_best_matches`).  Float scores are modelled
as rationals. -/

/-- One record of the persisted embedding index. -/
structure IndexRecord where
  id : String
  text : String
  embedding : List ℚ
deriving Repr

/-- Dot product of two equal-length vectors. -/
def dotQ (a b : List ℚ) : ℚ := (List.zipWith (fun x y => x * y) a b).sum

/-- `embs @ q_emb` for `embs = np.array([d["embedding"] for d in data])`.
An empty record list yields a 1-D array of shape `(0,)`, and numpy
raises on `(0,) @ (d,)`; a later `np.argsort` of the 0-d both-empty
result would raise as well, so the empty corpus is always an error.
Ragged or query-mismatched rows raise a dimension error. -/
def simsOf (embs : List (List ℚ)) (q : List ℚ) : Except String (List ℚ) :=
  match embs with
  | [] => Except.error "matmul: empty corpus gives shape (0,), not aligned with the query"
  | _ =>
    if embs.all (fun r => r.length == q.length) then
      Except.ok (embs.map (fun r => dotQ r q))
    else Except.error "matmul: dimension mismatch between corpus and query vectors"

/-- Index permutation sorting scores in non-increasing order,
`np.argsort(-sims)`.  numpy's default kind is an unstable introsort whose
tie order is implementation-defined; this model breaks ties by input
order (what numpy's small-array insertion sort happens to do). -/
def argsortDesc (sims : List ℚ) : List Nat :=
  ((List.range sims.length).mergeSort (fun i j => decide (sims.getD j 0 ≤ sims.getD i 0)))

/-- One retrieval result of `rag_query`. -/
structure RagResult where
  node_id : String
  score : ℚ
  text : String
deriving Repr

/-- `rag_query` from `graph_embedder.py`, after the query embedding has
been computed: score every record, take the arg-sorted top `top_k`. -/
def rag_query (index : List IndexRecord) (q_emb : List ℚ) (top_k : Nat) :
    Except String (List RagResult) :=
  match simsOf (index.map (fun d => d.embedding)) q_emb with
  | Except.error e => Except.error e
  | Except.ok sims =>
    let top_indices := (argsortDesc sims).take top_k
    Except.ok (top_indices.filterMap (fun i =>
      match index[i]? with
      | some d => some { node_id := d.id, score := sims.getD i 0, text := d.text }
      | none => none))

/-- Python `min(raw)` on a score list (callers guarantee non-emptiness;
Python raises on an empty argument, modelled separately). -/
def pymin (l : List ℚ) : ℚ := l.tail.foldl min (l.headD 0)

/-- Python `max(raw)` on a score list. -/
def pymax (l : List ℚ) : ℚ := l.tail.foldl max (l.headD 0)

/-- The fixed epsilon `1e-8` of the normalization guard. -/
def normEps : ℚ := 1 / 100000000

/-- The score-normalization step of `find_best_matches`
(`visualized_rag.py` lines 172–181), on a non-empty raw-score list:
rescale into `[0,1]`, or all `1.0` when the span is below `1e-8`. -/
def normalize_scores (raw : List ℚ) : List ℚ :=
  let min_s := pymin raw
  let max_s := pymax raw
  if max_s - min_s < normEps then raw.map (fun _ => 1)
  else raw.map (fun s => (s - min_s) / (max_s - min_s))

/-- One match of `find_best_matches`, with its normalized score. -/
structure VisMatch where
  node_id : String
  score : ℚ
  norm_score : ℚ
  rank : Nat
deriving Repr

/-- The ancestor chain described by the specification of the heading
walk: follow `CONTAINS` predecessors (at most one per step), stop when no
predecessor exists or at the first repeated ancestor. -/
def spec_ancestor_chain (g : Graph) : Nat → String → List String → List String
  | 0, _, _ => []
  | fuel + 1, current, visited =>
    match containsPreds g current with
    | [] => []
    | parent :: _ =>
      if parent ∈ visited then []
      else parent :: spec_ancestor_chain g fuel parent (parent :: visited)

/-- The heading line exactly as the specification words it: the line
`"{heading_tag}: {heading_text}"` for every ancestor of type
`Section_Heading` (no non-emptiness condition on the text). -/
def spec_heading_line (g : Graph) (n : String) : Option String :=
  let pdata := (getNode g n).getD {}
  if pdata.type == some "Section_Heading" then
    some ((pdata.tag.getD "h?") ++ ": " ++ pdata.heading_text.getD "")
  else none

/-- The heading-hierarchy walk as the specification describes it:
collect the ancestor chain, record a line for every `Section_Heading`
ancestor, reverse to outermost-first order. -/
def spec_heading_walk (g : Graph) (node : String) : List String :=
  ((spec_ancestor_chain g (g.edges.length + 1) node []).filterMap (spec_heading_line g)).reverse

/-- The amended heading line: as the specification words it, but
recording a line only for `Section_Heading` ancestors whose
`heading_text` is non-empty (with `"h?"` substituted for a missing tag),
which is what the code does. -/
def amended_heading_line (g : Graph) (n : String) : Option String :=
  let pdata := (getNode g n).getD {}
  if pdata.type == some "Section_Heading" && pdata.heading_text.getD "" ≠ "" then
    some ((pdata.tag.getD "h?") ++ ": " ++ pdata.heading_text.getD "")
  else none

/-- The amended heading-hierarchy walk (specification wording restricted
to non-empty heading texts). -/
def amended_heading_walk (g : Graph) (node : String) : List String :=
  ((spec_ancestor_chain g (g.edges.length + 1) node []).filterMap (amended_heading_line g)).reverse

/-- `find_best_matches` from `visualized_rag.py`: score, arg-sort, take
`top_k`, then `min`/`max`-normalize.  `min(raw_scores)` on an empty list
raises in Python, and the empty corpus already raises at the matmul. -/
def find_best_matches (index : List IndexRecord) (q_emb : List ℚ) (top_k : Nat) :
    Except String (List VisMatch) :=
  match simsOf (index.map (fun d => d.embedding)) q_emb with
  | Except.error e => Except.error e
  | Except.ok sims =>
    let top_indices := (argsortDesc sims).take top_k
    let raw_scores := top_indices.map (fun i => sims.getD i 0)
    if raw_scores.isEmpty then Except.error "min() arg is an empty sequence"
    else
      let norm_scores := normalize_scores raw_scores
      Except.ok (((top_indices.zip (raw_scores.zip norm_scores)).enum.map (fun z =>
        { node_id := ((index[z.2.1]?).map (fun d => d.id)).getD ""
          score := z.2.2.1
          norm_score := z.2.2.2
          rank := z.1 + 1 })))

/-! ## Derived notions used to state the graph claims -/

/-- The node ids of a graph, in insertion order. -/
def ids (g : Graph) : List String := g.nodes.map (fun p => p.1)

/-- The incoming `CONTAINS` edges of a node. -/
def containsInto (g : Graph) (id : String) : List Edge :=
  g.edges.filter (fun e => e.relation == "CONTAINS" && e.tgt == id)

/-- The ids of all `Data_Link` nodes, in insertion order. -/
def data_link_ids (g : Graph) : List String :=
  (g.nodes.filter (fun p => p.2.type == some "Data_Link")).map (fun p => p.1)

/-- Whether an anchor target is classified external by `process_anchor`:
its last path segment is not a known page and it matches `^(http|https)`. -/
def isExternalHref (known_pages : List String) (href : String) : Bool :=
  !(known_pages.contains (last_segment href)) &&
    (strStartsWith href "http" || strStartsWith href "https")

mutual
/-- The `(fragment-stripped href, link text)` pairs of all anchors the
traversal classifies as external, in visit order (pre-order, skip-listed
subtrees pruned). -/
def ext_anchors (known_pages : List String) : HNode → List (String × String)
  | HNode.text _ => []
  | HNode.elem name attrs children =>
    if name ∈ skipTags then []
    else
      let self :=
        if name == "a" then
          match (attrs.find? (fun p => p.1 == "href")).map (fun p => p.2) with
          | none => []
          | some hrefRaw =>
            let href := frag_strip hrefRaw
            if isExternalHref known_pages href then
              [(href, extract_link_text (HNode.elem name attrs children))]
            else []
        else []
      self ++ ext_anchors_list known_pages children
/-- `ext_anchors` over a child list. -/
def ext_anchors_list (known_pages : List String) : List HNode → List (String × String)
  | [] => []
  | c :: rest => ext_anchors known_pages c ++ ext_anchors_list known_pages rest
end

/-- External anchors of one page: those in the subtree of its selected
structural root. -/
def ext_anchors_page (known_pages : List String) (page : String × HNode) :
    List (String × String) :=
  ext_anchors known_pages (select_root page.2).1

/-- External anchors of the whole input targeting a given URL, in
processing order. -/
def ext_anchors_to (pages : List (String × HNode)) (u : String) : List (String × String) :=
  ((pages.map (ext_anchors_page (pages.map (fun p => p.1)))).flatten).filter (fun a => a.1 == u)

/-- The external-anchor contribution of the element itself (empty unless
it is an `a` carrying an externally-classified target). -/
def ext_anchor_self (kp : List String) (el : HNode) : List (String × String) :=
  match el with
  | HNode.text _ => []
  | HNode.elem name attrs children =>
    if name == "a" then
      match (attrs.find? (fun p => p.1 == "href")).map (fun p => p.2) with
      | none => []
      | some hrefRaw =>
        let href := frag_strip hrefRaw
        if isExternalHref kp href then
          [(href, extract_link_text (HNode.elem name attrs children))]
        else []
    else []

/-- Attributes an `External_Page` node is created with. -/
def extAttrs (u txt : String) : NodeAttrs :=
  { type := some "External_Page", url := some u, label := some txt,
    hostname := some (hostnameOf u) }

/-- A tag name that cannot make two generated ids collide: it contains no
underscore and differs from the `DATA` marker of data-link ids. -/
def tagNameOk (n : String) : Bool := !(n.toList.contains '_') && n ≠ "DATA"

mutual
/-- All tag names of a parse tree are collision-safe. -/
def tags_ok : HNode → Bool
  | HNode.text _ => true
  | HNode.elem n _ cs => tagNameOk n && tags_ok_list cs
/-- `tags_ok` over a child list. -/
def tags_ok_list : List HNode → Bool
  | [] => true
  | c :: rest => tags_ok c && tags_ok_list rest
end

/-- The page's title element, if found, has a `.string` (otherwise the
Python builder raises an `AttributeError` on `.strip()`). -/
def title_ok (soup : HNode) : Bool :=
  match find_tag "title" soup with
  | none => true
  | some t => (tag_string t).isSome

/-- Well-formed builder input: distinct page file names ending in
`.html` (as produced by the `.html`-filtered directory listing) that do
not start with `http`, collision-safe tag names, and well-formed title
elements.  Every input obtained from a real directory of HTML files
parsed by `html.parser` (which lower-cases tag names) satisfies this. -/
def wf_input (pages : List (String × HNode)) : Prop :=
  (pages.map (fun p => p.1)).Nodup ∧
    ∀ p ∈ pages, strEndsWith p.1 ".html" = true ∧ strStartsWith p.1 "http" = false ∧
      tags_ok p.2 = true ∧ title_ok p.2 = true

instance (pages : List (String × HNode)) : Decidable (wf_input pages) := by
  unfold wf_input
  exact @instDecidableAnd _ _ inferInstance (List.decidableBAll _ pages)

/-! ## Concrete inputs used by counterexamples and witnesses -/

/-- A page whose single anchor links to the page itself. -/
def selfLinkSoup : HNode :=
  HNode.elem "[document]" []
    [HNode.elem "html" [] [HNode.elem "a" [("href", "a.html")] [HNode.text "self"]]]

/-- A page with one `mailto:` anchor inside a body. -/
def mailSoupA : HNode :=
  HNode.elem "[document]" []
    [HNode.elem "html" []
      [HNode.elem "body" []
        [HNode.elem "a" [("href", "mailto:x@y.z")] [HNode.text "mail"]]]]

/-- A second page with one `mailto:` anchor, directly under `html`. -/
def mailSoupB : HNode :=
  HNode.elem "[document]" []
    [HNode.elem "html" [] [HNode.elem "a" [("href", "mailto:x@y.z")] [HNode.text "mail"]]]

/-- A page whose empty `h1` contains an anchor (so the anchor has a
`Section_Heading` ancestor with empty `heading_text`). -/
def emptyHeadingSoup : HNode :=
  HNode.elem "[document]" []
    [HNode.elem "html" []
      [HNode.elem "h1" [] [HNode.elem "a" [("href", "q.html")] []]]]

/-- Two pages that both link to the same external URL. -/
def extSoupA : HNode :=
  HNode.elem "[document]" []
    [HNode.elem "html" [] [HNode.elem "a" [("href", "http://x.com/p")] [HNode.text "go"]]]

/-- Second page linking to the same external URL, with a fragment. -/
def extSoupB : HNode :=
  HNode.elem "[document]" []
    [HNode.elem "html" []
      [HNode.elem "a" [("href", "http://x.com/p#frag")] [HNode.text "go2"]]]

mutual
/-- The spec's reading of the snippet source text (claim C10): all
descendant strings, including those inside skip-listed elements such as
`script` and `style`. -/
def spec_strings_all : HNode → List String
  | HNode.text s => [s]
  | HNode.elem _ _ cs => spec_strings_all_list cs
/-- `spec_strings_all` over a child list. -/
def spec_strings_all_list : List HNode → List String
  | [] => []
  | c :: rest => spec_strings_all c ++ spec_strings_all_list rest
end

/-- The claim's snippet source: concatenation over all descendants,
skip-listed ones included. -/
def spec_text_with_skipped (el : HNode) : String := strJoin (spec_strings_all el)

/-- A third page whose anchor to the same URL carries no visible text,
only an `img` with an `alt` attribute. -/
def extSoupC : HNode :=
  HNode.elem "[document]" []
    [HNode.elem "html" []
      [HNode.elem "a" [("href", "http://x.com/p")]
        [HNode.elem "img" [("alt", "Logo")] []]]]

/-- A `div` whose text partly sits inside a `script` child. -/
def divWithScript : HNode :=
  HNode.elem "div" [] [HNode.text "A ", HNode.elem "script" [] [HNode.text "var x=1;"]]

/-- A small hand-written graph exercising the embedding selection. -/
def g8 : Graph :=
  { nodes := [("pf", { type := some "Page_File", title := some "T" }),
              ("ext", { type := some "External_Page", url := some "http://x" }),
              ("dom1", { type := some "DOM_Element", tag := some "a" }),
              ("para", { type := some "Paragraph", full_text := some "hi" })]
    edges := [{ src := "dom1", tgt := "ext", relation := "LINKS_TO_EXTERNAL_PAGE",
                anchor := some "x" }] }

/-- The anchor element of the self-link witness. -/
def anchorSelf : HNode := HNode.elem "a" [("href", "a.html")] [HNode.text "self"]

/-- The anchor element of the mailto witness. -/
def anchorMail : HNode := HNode.elem "a" [("href", "mailto:x@y.z")] [HNode.text "mail"]

/-- A one-node graph used by step-level witnesses. -/
def gW : Graph := { nodes := [("a.html_a_0", {})], edges := [] }

/-- The `"{page}_DATA_{n}"` id of a data-link node (the form used inside
`process_anchor`). -/
def mkDataId (page : String) (n : Nat) : String := page ++ "_DATA_" ++ toString n

/-- Numeric value of a digit character (verification helper used to
invert `Nat.repr`). -/
def digitVal (c : Char) : Nat := c.toNat - '0'.toNat

/-- Decimal parse of a character list (verification helper). -/
def parseFold (k : Nat) (l : List Char) : Nat :=
  l.foldl (fun a c => a * 10 + digitVal c) k

/-- The page attribute of a node, if any. -/
def pageOf (g : Graph) (id : String) : Option String :=
  (getNode g id).bind (fun a => a.page)

/-- Number of `LINKS_TO_EXTERNAL_PAGE` edges onto a given target. -/
def extCount (g : Graph) (u : String) : Nat :=
  (g.edges.filter (fun e => e.relation == "LINKS_TO_EXTERNAL_PAGE" && e.tgt == u)).length

/-- Page-set hygiene: names end in `.html` (hence are non-empty and do
not collide with generated ids) and do not start with `http`. -/
def PagesOk (P : List String) : Prop :=
  ∀ q ∈ P, strEndsWith q ".html" = true ∧ strStartsWith q "http" = false

/-- Classification of one node entry of the graph under construction:
a (possibly not yet processed) page node, a structural DOM node whose
index sits below the allocator counter, an external-page node, or a
data-link node whose count sits below the graph size. -/
def NodeClass (P : List String) (st : BState) (pr : String × NodeAttrs) : Prop :=
  (pr.1 ∈ P ∧ pr.2.page = none)
  ∨ (∃ p t i, p ∈ P ∧ pr.1 = mkDomId p t i ∧ tagNameOk t = true ∧
      i < counterGet st.counters (p, t) ∧ pr.2.page = some p ∧
      pr.2.type ∈ [some "DOM_Element", some "Page_Title", some "Section_Heading",
        some "Paragraph"])
  ∨ (strStartsWith pr.1 "http" = true ∧ pr.2.page = none)
  ∨ (∃ p n, p ∈ P ∧ pr.1 = mkDataId p n ∧ n < st.g.nodes.length ∧ pr.2.page = none)

/-- Well-formedness of one `CONTAINS` edge: it targets a structural node
of some known page, and its source is that page's file node or a
structural node of the same page. -/
def ContainsOk (P : List String) (g : Graph) (e : Edge) : Prop :=
  ∃ p t i, p ∈ P ∧ e.tgt = mkDomId p t i ∧ tagNameOk t = true ∧
    pageOf g e.tgt = some p ∧ (e.src = p ∨ pageOf g e.src = some p)

/-- The graph-construction invariant. -/
structure Inv (P : List String) (st : BState) : Prop where
  nodup : (ids st.g).Nodup
  classify : ∀ pr ∈ st.g.nodes, NodeClass P st pr
  contains : ∀ e ∈ st.g.edges, e.relation = "CONTAINS" → ContainsOk P st.g e
  uniq : ∀ pr ∈ st.g.nodes, ∀ p, pr.2.page = some p → (containsInto st.g pr.1).length = 1

/-- What one traversal step (or subtree) does to the builder state, with
`A` the external anchors it visits in order: the invariant is maintained,
nodes and edges only grow, counters only grow, external-page nodes evolve
by first-sighting creation, and external link edges are counted exactly. -/
def Post (P : List String) (st st' : BState) (A : List (String × String)) : Prop :=
  Inv P st' ∧
  (∃ Δ, st'.g.nodes = st.g.nodes ++ Δ) ∧
  (∃ Δe, st'.g.edges = st.g.edges ++ Δe) ∧
  (∀ k, counterGet st.counters k ≤ counterGet st'.counters k) ∧
  (∀ u, strStartsWith u "http" = true →
    (getNode st.g u = none →
      getNode st'.g u = (A.filter (fun a => a.1 == u)).head?.map (fun a => extAttrs u a.2)) ∧
    (∀ b, getNode st.g u = some b → getNode st'.g u = some b)) ∧
  (∀ u, extCount st'.g u = extCount st.g u + (A.filter (fun a => a.1 == u)).length)


/-- Weak step relation between whole-page processing stages: unlike
`Post` it does not promise an append-only node list (re-adding an
auto-created `Page_File` node merges attributes in place), but it keeps
the invariant, edge append-onlyness, counter growth, `Page_File` typing,
the external-page first-sighting view and the external edge counts. -/
def WPost (P : List String) (st st' : BState) (A : List (String × String)) : Prop :=
  Inv P st' ∧
  (∃ Δe, st'.g.edges = st.g.edges ++ Δe) ∧
  (∀ k, counterGet st.counters k ≤ counterGet st'.counters k) ∧
  (∀ q b, getNode st.g q = some b → b.type = some "Page_File" →
    ∃ a, getNode st'.g q = some a ∧ a.type = some "Page_File") ∧
  (∀ u, strStartsWith u "http" = true →
    (getNode st.g u = none →
      getNode st'.g u = (A.filter (fun a => a.1 == u)).head?.map (fun a => extAttrs u a.2)) ∧
    (∀ b, getNode st.g u = some b → getNode st'.g u = some b)) ∧
  (∀ u, extCount st'.g u = extCount st.g u + (A.filter (fun a => a.1 == u)).length)

/-- The per-page `CONTAINS` tree property of the built graph: no
`CONTAINS` edge targets a page-file id, every `CONTAINS` edge targets a
node attributed to a known page with a same-page source, every
page-attributed node has exactly one incoming `CONTAINS` edge, and every
input page owns a `Page_File`-typed node. -/
def c5Prop (pages : List (String × HNode)) : Prop :=
  (∀ e ∈ (build_graph pages).g.edges, e.relation = "CONTAINS" →
      e.tgt ∉ pages.map (fun p => p.1) ∧
      ∃ q, q ∈ pages.map (fun p => p.1) ∧
        pageOf (build_graph pages).g e.tgt = some q ∧
        (e.src = q ∨ pageOf (build_graph pages).g e.src = some q)) ∧
  (∀ pr ∈ (build_graph pages).g.nodes, ∀ q, pr.2.page = some q →
      (containsInto (build_graph pages).g pr.1).length = 1) ∧
  (∀ pg ∈ pages, ∃ a, getNode (build_graph pages).g pg.1 = some a ∧
      a.type = some "Page_File")

/-- External-page dedup property of the built graph: ids are bound once,
and for every `http`-prefixed URL the node stored under that URL is
exactly the `External_Page` record of the first anchor targeting it (no
node when no anchor does), while the `LINKS_TO_EXTERNAL_PAGE` edges onto
it number exactly the anchors targeting it. -/
def c6Prop (pages : List (String × HNode)) : Prop :=
  (ids (build_graph pages).g).Nodup ∧
  ∀ u, strStartsWith u "http" = true →
    getNode (build_graph pages).g u
      = ((ext_anchors_to pages u).head?).map (fun a => extAttrs u a.2) ∧
    extCount (build_graph pages).g u = (ext_anchors_to pages u).length


/-!
# Theorems

Shared lemmas first, then one theorem per claim (with its witness or
counterexample where required).
-/

/-- `toDigitsCore` moves its accumulator outside. -/
lemma toDigitsCore_acc (fuel : Nat) : ∀ (n : Nat) (ds : List Char),
    Nat.toDigitsCore 10 fuel n ds = Nat.toDigitsCore 10 fuel n [] ++ ds := by
  induction fuel with
  | zero => intro n ds; rfl
  | succ f ih =>
    intro n ds
    simp only [Nat.toDigitsCore]
    by_cases h : n / 10 = 0
    · rw [if_pos h, if_pos h]
      rfl
    · rw [if_neg h, if_neg h]
      rw [ih (n / 10) (Nat.digitChar (n % 10) :: ds), ih (n / 10) [Nat.digitChar (n % 10)]]
      rw [List.append_assoc]
      rfl

/-- A digit character below ten round-trips through `digitVal`. -/
lemma digitVal_digitChar (m : Nat) (h : m < 10) : digitVal (Nat.digitChar m) = m := by
  interval_cases m <;> decide

/-- `parseFold` consumes appends sequentially. -/
lemma parseFold_append (k : Nat) (l1 l2 : List Char) :
    parseFold k (l1 ++ l2) = parseFold (parseFold k l1) l2 := by
  unfold parseFold
  rw [List.foldl_append]

/-- `parseFold` inverts `toDigitsCore` with sufficient fuel. -/
lemma parseFold_toDigitsCore (fuel : Nat) : ∀ n : Nat, n < 10 ^ fuel →
    ∀ k, parseFold k (Nat.toDigitsCore 10 fuel n []) = k * 10 ^ (Nat.toDigitsCore 10 fuel n []).length + n := by
  induction fuel with
  | zero =>
    intro n hn k
    interval_cases n
    simp [parseFold, Nat.toDigitsCore]
  | succ f ih =>
    intro n hn k
    simp only [Nat.toDigitsCore]
    by_cases h : n / 10 = 0
    · rw [if_pos h]
      have hn10 : n < 10 := by omega
      simp only [parseFold, List.foldl_cons, List.foldl_nil, List.length_cons,
        List.length_nil]
      rw [Nat.mod_eq_of_lt hn10, digitVal_digitChar n hn10]
      norm_num
    · rw [if_neg h]
      rw [toDigitsCore_acc]
      rw [parseFold_append]
      have hdiv : n / 10 < 10 ^ f := by
        rw [Nat.div_lt_iff_lt_mul (by norm_num)]
        calc n < 10 ^ (f + 1) := hn
        _ = 10 ^ f * 10 := by ring
      rw [ih (n / 10) hdiv k]
      simp only [parseFold, List.foldl_cons, List.foldl_nil, List.length_append,
        List.length_cons, List.length_nil]
      rw [digitVal_digitChar (n % 10) (by omega)]
      have hsp : (k * 10 ^ (Nat.toDigitsCore 10 f (n / 10) []).length + n / 10) * 10 + n % 10
          = k * (10 ^ (Nat.toDigitsCore 10 f (n / 10) []).length * 10) + (n / 10 * 10 + n % 10) := by
        ring
      rw [hsp]
      simp only [Nat.zero_add]
      rw [pow_succ]
      omega

/-- Every natural is below `10 ^ (n + 1)`. -/
lemma nat_lt_ten_pow (n : Nat) : n < 10 ^ (n + 1) := by
  calc n < 10 ^ n := Nat.lt_pow_self (by norm_num) n
  _ ≤ 10 ^ (n + 1) := Nat.pow_le_pow_right (by norm_num) (Nat.le_succ n)

/-- `parseFold 0` inverts `Nat.repr`. -/
lemma parseFold_repr (n : Nat) : parseFold 0 (Nat.repr n).data = n := by
  show parseFold 0 (Nat.toDigits 10 n).asString.data = n
  have hdata : (Nat.toDigits 10 n).asString.data = Nat.toDigits 10 n := rfl
  rw [hdata]
  unfold Nat.toDigits
  rw [parseFold_toDigitsCore (n + 1) n (nat_lt_ten_pow n) 0]
  simp

/-- `Nat.repr` is injective. -/
lemma natRepr_injective {m n : Nat} (h : Nat.repr m = Nat.repr n) : m = n := by
  have hm := parseFold_repr m
  have hn := parseFold_repr n
  rw [h] at hm
  rw [hm] at hn
  exact hn

/-- `digitChar` of a value below ten is a decimal digit. -/
lemma digitChar_isDigit (m : Nat) (h : m < 10) : (Nat.digitChar m).isDigit = true := by
  interval_cases m <;> decide

/-- Every character of `toDigitsCore` output over digit accumulators is a
decimal digit. -/
lemma toDigitsCore_digits (fuel : Nat) : ∀ (n : Nat) (ds : List Char),
    (∀ c ∈ ds, c.isDigit = true) →
    ∀ c ∈ Nat.toDigitsCore 10 fuel n ds, c.isDigit = true := by
  induction fuel with
  | zero => intro n ds hds; exact hds
  | succ f ih =>
    intro n ds hds c hc
    simp only [Nat.toDigitsCore] at hc
    have hdigit : (Nat.digitChar (n % 10)).isDigit = true :=
      digitChar_isDigit (n % 10) (by omega)
    by_cases h : n / 10 = 0
    · rw [if_pos h] at hc
      rcases List.mem_cons.mp hc with rfl | hmem
      · exact hdigit
      · exact hds c hmem
    · rw [if_neg h] at hc
      refine ih (n / 10) (Nat.digitChar (n % 10) :: ds) ?_ c hc
      intro c' hc'
      rcases List.mem_cons.mp hc' with rfl | hmem
      · exact hdigit
      · exact hds c' hmem

/-- Every character of `Nat.repr` is a decimal digit. -/
lemma natRepr_isDigit (n : Nat) : ∀ c ∈ (Nat.repr n).data, c.isDigit = true := by
  intro c hc
  exact toDigitsCore_digits (n + 1) n [] (by intro c' hc'; cases hc') c hc

/-- `Nat.repr` is never empty. -/
lemma natRepr_ne_nil (n : Nat) : (Nat.repr n).data ≠ [] := by
  show Nat.toDigitsCore 10 (n + 1) n [] ≠ []
  simp only [Nat.toDigitsCore]
  by_cases h : n / 10 = 0
  · rw [if_pos h]
    exact List.cons_ne_nil _ _
  · rw [if_neg h]
    rw [toDigitsCore_acc]
    exact fun he => List.cons_ne_nil _ _ (List.append_eq_nil.mp he).2

/-- `find?` over an appended singleton: the left list wins. -/
lemma find?_append_single (ns : List (String × NodeAttrs)) (x : String × NodeAttrs)
    (p : String × NodeAttrs → Bool) :
    (ns ++ [x]).find? p = ((ns.find? p).orElse (fun _ => [x].find? p)) := by
  induction ns with
  | nil => rfl
  | cons y ys ih =>
    by_cases hy : p y = true
    · rw [List.cons_append, List.find?_cons_of_pos _ hy, List.find?_cons_of_pos _ hy]
      simp [Option.orElse]
    · rw [List.cons_append, List.find?_cons_of_neg _ hy, List.find?_cons_of_neg _ hy]
      exact ih

/-- Appending a node keeps every present node present. -/
lemma hasNode_append (g : Graph) (x : String × NodeAttrs) (id : String)
    (h : hasNode g id = true) :
    hasNode { g with nodes := g.nodes ++ [x] } id = true := by
  unfold hasNode getNode at *
  simp only [find?_append_single]
  cases hf : g.nodes.find? (fun p => p.1 == id) with
  | none => rw [hf] at h; simp at h
  | some v => simp [Option.orElse]

/-- Looking up a freshly appended node finds its attributes. -/
lemma getNode_append_self (g : Graph) (id : String) (attrs : NodeAttrs)
    (h : hasNode g id = false) :
    getNode { g with nodes := g.nodes ++ [(id, attrs)] } id = some attrs := by
  unfold hasNode getNode at *
  cases hf : g.nodes.find? (fun p => p.1 == id) with
  | none => simp [find?_append_single, hf, Option.orElse]
  | some v => rw [hf] at h; simp at h

/-- A left fold of `min` never exceeds its initial value. -/
lemma min_foldl_le (l : List ℚ) (a : ℚ) : l.foldl min a ≤ a := by
  induction l generalizing a with
  | nil => simp
  | cons x xs ih => exact le_trans (ih (min a x)) (min_le_left a x)

/-- A left fold of `min` never exceeds any list element. -/
lemma min_foldl_le_mem (l : List ℚ) (a x : ℚ) (hx : x ∈ l) : l.foldl min a ≤ x := by
  induction l generalizing a with
  | nil => cases hx
  | cons y ys ih =>
    rcases List.mem_cons.mp hx with h | h
    · subst h
      exact le_trans (min_foldl_le ys (min a x)) (min_le_right a x)
    · exact ih (min a y) h

/-- A left fold of `max` is at least its initial value. -/
lemma le_max_foldl (l : List ℚ) (a : ℚ) : a ≤ l.foldl max a := by
  induction l generalizing a with
  | nil => simp
  | cons x xs ih => exact le_trans (le_max_left a x) (ih (max a x))

/-- A left fold of `max` is at least any list element. -/
lemma mem_le_max_foldl (l : List ℚ) (a x : ℚ) (hx : x ∈ l) : x ≤ l.foldl max a := by
  induction l generalizing a with
  | nil => cases hx
  | cons y ys ih =>
    rcases List.mem_cons.mp hx with h | h
    · subst h
      exact le_trans (le_max_right a x) (le_max_foldl ys (max a x))
    · exact ih (max a y) h

/-- `pymin` bounds every member from below. -/
lemma pymin_le_of_mem {raw : List ℚ} {x : ℚ} (hx : x ∈ raw) : pymin raw ≤ x := by
  cases raw with
  | nil => cases hx
  | cons h t =>
    unfold pymin
    simp only [List.tail_cons, List.headD_cons]
    rcases List.mem_cons.mp hx with rfl | hxt
    · exact min_foldl_le t x
    · exact min_foldl_le_mem t h x hxt

/-- `pymax` bounds every member from above. -/
lemma le_pymax_of_mem {raw : List ℚ} {x : ℚ} (hx : x ∈ raw) : x ≤ pymax raw := by
  cases raw with
  | nil => cases hx
  | cons h t =>
    unfold pymax
    simp only [List.tail_cons, List.headD_cons]
    rcases List.mem_cons.mp hx with rfl | hxt
    · exact le_max_foldl t x
    · exact mem_le_max_foldl t h x hxt

/-- Folding `min` over copies of the initial value is the identity. -/
lemma min_foldl_const (t : List ℚ) (a : ℚ) (h : ∀ b ∈ t, b = a) : t.foldl min a = a := by
  induction t with
  | nil => rfl
  | cons x xs ih =>
    have hx : x = a := h x (List.mem_cons_self x xs)
    subst hx
    simp only [List.foldl_cons, min_self]
    exact ih (fun b hb => h b (List.mem_cons_of_mem x hb))

/-- Folding `max` over copies of the initial value is the identity. -/
lemma max_foldl_const (t : List ℚ) (a : ℚ) (h : ∀ b ∈ t, b = a) : t.foldl max a = a := by
  induction t with
  | nil => rfl
  | cons x xs ih =>
    have hx : x = a := h x (List.mem_cons_self x xs)
    subst hx
    simp only [List.foldl_cons, max_self]
    exact ih (fun b hb => h b (List.mem_cons_of_mem x hb))

/-- Splitting a character list at its last underscore is unique: if the
parts after the shown underscore are underscore-free, the decomposition
determines both sides. -/
lemma split_last_underscore : ∀ (a1 a2 r1 r2 : List Char), '_' ∉ r1 → '_' ∉ r2 →
    a1 ++ '_' :: r1 = a2 ++ '_' :: r2 → a1 = a2 ∧ r1 = r2 := by
  intro a1
  induction a1 with
  | nil =>
    intro a2 r1 r2 h1 h2 heq
    cases a2 with
    | nil =>
      simp only [List.nil_append] at heq
      injection heq with _ hr
      exact ⟨rfl, hr⟩
    | cons c a2' =>
      simp only [List.nil_append, List.cons_append] at heq
      injection heq with hc hr
      exfalso
      apply h1
      rw [hr]
      exact List.mem_append.mpr (Or.inr (List.mem_cons_self _ _))
  | cons c a1' ih =>
    intro a2 r1 r2 h1 h2 heq
    cases a2 with
    | nil =>
      simp only [List.cons_append, List.nil_append] at heq
      injection heq with hc hr
      exfalso
      apply h2
      rw [← hr]
      exact List.mem_append.mpr (Or.inr (List.mem_cons_self _ _))
    | cons c2 a2' =>
      simp only [List.cons_append] at heq
      injection heq with hc hr
      obtain ⟨he1, he2⟩ := ih a2' r1 r2 h1 h2 hr
      exact ⟨by rw [hc, he1], he2⟩

/-- Two strings with equal character lists are equal. -/
lemma str_ext {s1 s2 : String} (h : s1.data = s2.data) : s1 = s2 := by
  cases s1
  cases s2
  exact congrArg String.mk h

/-- The character list of a structural node id. -/
lemma mkDomId_data (p t : String) (i : Nat) :
    (mkDomId p t i).data = (p.data ++ '_' :: t.data) ++ '_' :: (Nat.repr i).data := by
  have ht : (toString i : String) = Nat.repr i := rfl
  unfold mkDomId
  rw [ht]
  simp [String.data_append]

/-- The character list of a data-link node id. -/
lemma mkDataId_data (p : String) (n : Nat) :
    (mkDataId p n).data = (p.data ++ '_' :: ['D', 'A', 'T', 'A']) ++ '_' :: (Nat.repr n).data := by
  have ht : (toString n : String) = Nat.repr n := rfl
  unfold mkDataId
  rw [ht]
  simp [String.data_append]

/-- Decimal representations contain no underscore. -/
lemma natRepr_no_underscore (i : Nat) : '_' ∉ (Nat.repr i).data := fun h =>
  absurd (natRepr_isDigit i '_' h) (by decide)

/-- A collision-safe tag name has no underscore and is not `DATA`. -/
lemma tagNameOk_spec {t : String} (h : tagNameOk t = true) :
    '_' ∉ t.data ∧ t ≠ "DATA" := by
  unfold tagNameOk at h
  simp only [Bool.and_eq_true, Bool.not_eq_true', decide_eq_true_eq] at h
  refine ⟨fun hmem => ?_, h.2⟩
  have := h.1
  rw [List.contains_eq_any_beq] at this
  have : t.toList.any (fun c => '_' == c) = true := by
    apply List.any_eq_true.mpr
    exact ⟨'_', hmem, by simp⟩
  simp_all

/-- Structural node ids are injective in `(page, tag, index)` for
collision-safe tags. -/
lemma mkDomId_inj {p1 t1 p2 t2 : String} {i1 i2 : Nat}
    (h1 : '_' ∉ t1.data) (h2 : '_' ∉ t2.data)
    (h : mkDomId p1 t1 i1 = mkDomId p2 t2 i2) : p1 = p2 ∧ t1 = t2 ∧ i1 = i2 := by
  have hd := congrArg String.data h
  rw [mkDomId_data, mkDomId_data] at hd
  obtain ⟨hx, hr⟩ := split_last_underscore _ _ _ _
    (natRepr_no_underscore i1) (natRepr_no_underscore i2) hd
  obtain ⟨hp, ht⟩ := split_last_underscore _ _ _ _ h1 h2 hx
  exact ⟨str_ext hp, str_ext ht, natRepr_injective (str_ext hr)⟩

/-- A structural id never collides with a data-link id when the tag is
collision-safe. -/
lemma mkDomId_ne_mkDataId {p1 t p2 : String} {i n : Nat}
    (ht : '_' ∉ t.data) (htD : t ≠ "DATA") : mkDomId p1 t i ≠ mkDataId p2 n := fun h => by
  have hd := congrArg String.data h
  rw [mkDomId_data, mkDataId_data] at hd
  obtain ⟨hx, _⟩ := split_last_underscore _ _ _ _
    (natRepr_no_underscore i) (natRepr_no_underscore n) hd
  obtain ⟨_, ht2⟩ := split_last_underscore _ _ _ _ ht (by decide) hx
  exact htD (str_ext ht2)

/-- Data-link ids are injective in `(page, count)`. -/
lemma mkDataId_inj {p1 p2 : String} {n1 n2 : Nat}
    (h : mkDataId p1 n1 = mkDataId p2 n2) : p1 = p2 ∧ n1 = n2 := by
  have hd := congrArg String.data h
  rw [mkDataId_data, mkDataId_data] at hd
  obtain ⟨hx, hr⟩ := split_last_underscore _ _ _ _
    (natRepr_no_underscore n1) (natRepr_no_underscore n2) hd
  obtain ⟨hp, _⟩ := split_last_underscore _ _ _ _ (by decide) (by decide) hx
  exact ⟨str_ext hp, natRepr_injective (str_ext hr)⟩

/-- The last element of a list ending in a non-empty suffix. -/
lemma getLast?_append_right (l1 l2 : List Char) (h : l2 ≠ []) :
    (l1 ++ l2).getLast? = l2.getLast? :=
  List.getLast?_append_of_ne_nil l1 h

/-- A string ending in `.html` has `'l'` as last character. -/
lemma endsHtml_getLast {q : String} (h : strEndsWith q ".html" = true) :
    q.data.getLast? = some 'l' := by
  unfold strEndsWith at h
  have hsuf : ".html".toList <:+ q.toList := by
    rw [← List.isSuffixOf_iff_suffix]
    exact h
  obtain ⟨s, hs⟩ := hsuf
  show q.toList.getLast? = some 'l'
  rw [← hs, getLast?_append_right s _ (by decide)]
  decide

/-- A decimal-digit string has a digit as last character. -/
lemma natRepr_getLast_digit (i : Nat) :
    ∃ d, (Nat.repr i).data.getLast? = some d ∧ d.isDigit = true := by
  have hne := natRepr_ne_nil i
  cases hl : (Nat.repr i).data.getLast? with
  | none => exact absurd (List.getLast?_eq_none_iff.mp hl) hne
  | some d =>
    refine ⟨d, rfl, ?_⟩
    obtain ⟨hne2, hlast⟩ := List.mem_getLast?_eq_getLast (l := (Nat.repr i).data) (x := d) hl
    have hmem : d ∈ (Nat.repr i).data := hlast ▸ List.getLast_mem hne2
    exact natRepr_isDigit i d hmem

/-- A page id (ending in `.html`) is never a structural node id. -/
lemma endsHtml_ne_mkDomId {q p t : String} {i : Nat}
    (hq : strEndsWith q ".html" = true) : q ≠ mkDomId p t i := fun h => by
  obtain ⟨d, hd, hdig⟩ := natRepr_getLast_digit i
  have h1 : q.data.getLast? = some 'l' := endsHtml_getLast hq
  have h2 : (mkDomId p t i).data.getLast? = some d := by
    rw [mkDomId_data, getLast?_append_right _ _ (List.cons_ne_nil _ _),
      show ('_' :: (Nat.repr i).data) = ['_'] ++ (Nat.repr i).data from rfl,
      getLast?_append_right _ _ (natRepr_ne_nil i)]
    exact hd
  rw [h, h2] at h1
  have hdl : d = 'l' := Option.some_inj.mp h1
  rw [hdl] at hdig
  exact absurd hdig (by decide)

/-- A page id (ending in `.html`) is never a data-link id. -/
lemma endsHtml_ne_mkDataId {q p : String} {n : Nat}
    (hq : strEndsWith q ".html" = true) : q ≠ mkDataId p n := fun h => by
  obtain ⟨d, hd, hdig⟩ := natRepr_getLast_digit n
  have h1 : q.data.getLast? = some 'l' := endsHtml_getLast hq
  have h2 : (mkDataId p n).data.getLast? = some d := by
    rw [mkDataId_data, getLast?_append_right _ _ (List.cons_ne_nil _ _),
      show ('_' :: (Nat.repr n).data) = ['_'] ++ (Nat.repr n).data from rfl,
      getLast?_append_right _ _ (natRepr_ne_nil n)]
    exact hd
  rw [h, h2] at h1
  have hdl : d = 'l' := Option.some_inj.mp h1
  rw [hdl] at hdig
  exact absurd hdig (by decide)

/-- A prefix shorter than the left part of an append is a prefix of it. -/
lemma isPrefixOf_of_append {pre l r : List Char} (hlen : pre.length ≤ l.length)
    (h : pre.isPrefixOf (l ++ r) = true) : pre.isPrefixOf l = true := by
  rw [List.isPrefixOf_iff_prefix] at h ⊢
  obtain ⟨s, hs⟩ := h
  have htake : (l ++ r).take pre.length = l.take pre.length := List.take_append_of_le_length hlen
  have hpre : pre = (l ++ r).take pre.length := by
    rw [← hs, List.take_append_of_le_length (by simp)]
    simp
  have hpre2 : pre = l.take pre.length := hpre.trans htake
  nth_rewrite 1 [hpre2]
  exact List.take_prefix _ l

/-- A string ending in `.html` has at least five characters. -/
lemma endsHtml_length {q : String} (h : strEndsWith q ".html" = true) :
    5 ≤ q.data.length := by
  unfold strEndsWith at h
  have hsuf : ".html".toList <:+ q.toList := by
    rw [← List.isSuffixOf_iff_suffix]
    exact h
  obtain ⟨s, hs⟩ := hsuf
  have : q.toList.length = s.length + 5 := by rw [← hs]; simp
  show 5 ≤ q.toList.length
  omega

/-- A concatenation led by a page id (ending in `.html`, not starting
with `http`) never starts with `http`. -/
lemma page_prefix_not_http {p : String} (r : List Char)
    (hhtml : strEndsWith p ".html" = true) (hp : strStartsWith p "http" = false) :
    ("http".toList.isPrefixOf (p.data ++ r)) = false := by
  by_contra hcon
  rw [Bool.not_eq_false] at hcon
  have hlen : ("http".toList).length ≤ p.data.length := by
    have h5 := endsHtml_length hhtml
    have h4 : ("http".toList).length = 4 := by decide
    omega
  have hpref := isPrefixOf_of_append hlen hcon
  unfold strStartsWith at hp
  rw [show p.toList = p.data from rfl] at hp
  rw [hpref] at hp
  exact Bool.noConfusion hp

/-- A structural node id of a page never starts with `http`. -/
lemma mkDomId_not_http {p t : String} {i : Nat}
    (hhtml : strEndsWith p ".html" = true) (hp : strStartsWith p "http" = false) :
    strStartsWith (mkDomId p t i) "http" = false := by
  unfold strStartsWith
  rw [show (mkDomId p t i).toList = (mkDomId p t i).data from rfl, mkDomId_data,
    List.append_assoc]
  exact page_prefix_not_http _ hhtml hp

/-- A data-link id of a page never starts with `http`. -/
lemma mkDataId_not_http {p : String} {n : Nat}
    (hhtml : strEndsWith p ".html" = true) (hp : strStartsWith p "http" = false) :
    strStartsWith (mkDataId p n) "http" = false := by
  unfold strStartsWith
  rw [show (mkDataId p n).toList = (mkDataId p n).data from rfl, mkDataId_data,
    List.append_assoc]
  exact page_prefix_not_http _ hhtml hp

/-- `find?` over an append searches left first. -/
lemma find?_append_gen {α : Type} (l1 l2 : List α) (p : α → Bool) :
    (l1 ++ l2).find? p = ((l1.find? p).orElse (fun _ => l2.find? p)) := by
  induction l1 with
  | nil => rfl
  | cons y ys ih =>
    by_cases hy : p y = true
    · rw [List.cons_append, List.find?_cons_of_pos _ hy, List.find?_cons_of_pos _ hy]
      simp [Option.orElse]
    · rw [List.cons_append, List.find?_cons_of_neg _ hy, List.find?_cons_of_neg _ hy]
      exact ih

/-- A bound node keeps its attributes when the node list is extended. -/
lemma getNode_extend {g g' : Graph} (hext : ∃ Δ, g'.nodes = g.nodes ++ Δ) (x : String)
    {b : NodeAttrs} (h : getNode g x = some b) : getNode g' x = some b := by
  obtain ⟨Δ, hΔ⟩ := hext
  unfold getNode at h ⊢
  rw [hΔ, find?_append_gen]
  cases hf : g.nodes.find? (fun q => q.1 == x) with
  | none => rw [hf] at h; simp at h
  | some v =>
    rw [hf] at h
    simpa [Option.orElse] using h

/-- A present node stays present when the node list is extended. -/
lemma hasNode_extend {g g' : Graph} (hext : ∃ Δ, g'.nodes = g.nodes ++ Δ) (x : String)
    (h : hasNode g x = true) : hasNode g' x = true := by
  unfold hasNode at h ⊢
  cases hg : getNode g x with
  | none => rw [hg] at h; simp at h
  | some b => rw [getNode_extend hext x hg]; rfl

/-- The page attribute survives node-list extension. -/
lemma pageOf_extend {g g' : Graph} (hext : ∃ Δ, g'.nodes = g.nodes ++ Δ) (x : String)
    {p : String} (h : pageOf g x = some p) : pageOf g' x = some p := by
  unfold pageOf at h ⊢
  rcases Option.bind_eq_some.mp h with ⟨a, ha, hp⟩
  rw [getNode_extend hext x ha]
  simpa using hp

/-- A successful lookup comes from a matching entry. -/
lemma exists_mem_of_getNode {g : Graph} {x : String} {a : NodeAttrs}
    (h : getNode g x = some a) : ∃ pr ∈ g.nodes, pr.1 = x ∧ pr.2 = a := by
  unfold getNode at h
  cases hf : g.nodes.find? (fun q => q.1 == x) with
  | none => rw [hf] at h; cases h
  | some v =>
    rw [hf] at h
    have hv := List.mem_of_find?_eq_some hf
    have hkey := List.find?_some hf
    exact ⟨v, hv, by simpa using hkey, by simpa using h⟩

/-- `find?` on a key-nodup association list finds exactly the member. -/
lemma find?_eq_of_nodup (ns : List (String × NodeAttrs))
    (h : (ns.map (fun p => p.1)).Nodup) (pr : String × NodeAttrs) (hpr : pr ∈ ns) :
    ns.find? (fun q => q.1 == pr.1) = some pr := by
  induction ns with
  | nil => cases hpr
  | cons x xs ih =>
    simp only [List.map_cons, List.nodup_cons] at h
    rcases List.mem_cons.mp hpr with rfl | hmem
    · rw [List.find?_cons_of_pos _ (by simp)]
    · have hx : (x.1 == pr.1) = false := by
        have : pr.1 ∈ xs.map (fun p => p.1) := List.mem_map_of_mem _ hmem
        simp only [beq_eq_false_iff_ne, ne_eq]
        intro he
        exact h.1 (he ▸ this)
      rw [List.find?_cons_of_neg _ (by simp [hx])]
      exact ih h.2 hmem

/-- On nodup keys, every entry is found by its own key. -/
lemma getNode_of_mem_nodup {g : Graph} (hnd : (ids g).Nodup) {pr : String × NodeAttrs}
    (hpr : pr ∈ g.nodes) : getNode g pr.1 = some pr.2 := by
  unfold getNode
  rw [find?_eq_of_nodup g.nodes hnd pr hpr]
  rfl

/-- A lookup misses exactly the unbound ids. -/
lemma getNode_none_iff {g : Graph} {x : String} : getNode g x = none ↔ x ∉ ids g := by
  unfold getNode ids
  rw [Option.map_eq_none', List.find?_eq_none]
  constructor
  · intro h hmem
    rcases List.mem_map.mp hmem with ⟨pr, hpr, he⟩
    have := h pr hpr
    simp [he] at this
  · intro h pr hpr hbeq
    exact h (List.mem_map.mpr ⟨pr, hpr, by simpa using hbeq⟩)

/-- Updating a counter key stores its value there. -/
lemma find?_map_update_self (cs : Counters) (k : String × String) (v : Nat) :
    ((cs.map (fun p => if p.1 == k then (p.1, v) else p)).find? (fun p => p.1 == k))
      = (cs.find? (fun p => p.1 == k)).map (fun p => (p.1, v)) := by
  induction cs with
  | nil => rfl
  | cons y ys ih =>
    simp only [List.map_cons]
    by_cases hy : (y.1 == k) = true
    · rw [if_pos hy,
        show List.find? (fun p => p.1 == k)
            ((y.1, v) :: ys.map (fun p => if p.1 == k then (p.1, v) else p)) = some (y.1, v)
          from List.find?_cons_of_pos _ hy,
        show List.find? (fun p => p.1 == k) (y :: ys) = some y
          from List.find?_cons_of_pos _ hy]
      rfl
    · rw [if_neg hy,
        show List.find? (fun p => p.1 == k)
            (y :: ys.map (fun p => if p.1 == k then (p.1, v) else p))
          = List.find? (fun p => p.1 == k) (ys.map (fun p => if p.1 == k then (p.1, v) else p))
          from List.find?_cons_of_neg _ hy,
        show List.find? (fun p => p.1 == k) (y :: ys) = List.find? (fun p => p.1 == k) ys
          from List.find?_cons_of_neg _ hy]
      exact ih

/-- Updating one counter key leaves other keys untouched. -/
lemma find?_map_update_other (cs : Counters) (k k' : String × String) (v : Nat)
    (hne : k' ≠ k) :
    ((cs.map (fun p => if p.1 == k then (p.1, v) else p)).find? (fun p => p.1 == k'))
      = cs.find? (fun p => p.1 == k') := by
  induction cs with
  | nil => rfl
  | cons y ys ih =>
    simp only [List.map_cons]
    by_cases hy : (y.1 == k') = true
    · have hyk : (y.1 == k) = false := by
        have hk' : y.1 = k' := by simpa using hy
        simp [hk', hne]
      rw [if_neg (by simp [hyk]),
        show List.find? (fun p => p.1 == k')
            (y :: ys.map (fun p => if p.1 == k then (p.1, v) else p)) = some y
          from List.find?_cons_of_pos _ hy,
        show List.find? (fun p => p.1 == k') (y :: ys) = some y
          from List.find?_cons_of_pos _ hy]
    · by_cases hyk : (y.1 == k) = true
      · rw [if_pos hyk,
          show List.find? (fun p => p.1 == k')
              ((y.1, v) :: ys.map (fun p => if p.1 == k then (p.1, v) else p))
            = List.find? (fun p => p.1 == k') (ys.map (fun p => if p.1 == k then (p.1, v) else p))
            from List.find?_cons_of_neg _ (by simpa using hy),
          show List.find? (fun p => p.1 == k') (y :: ys) = List.find? (fun p => p.1 == k') ys
            from List.find?_cons_of_neg _ hy]
        exact ih
      · rw [if_neg (by simp [hyk]),
          show List.find? (fun p => p.1 == k')
              (y :: ys.map (fun p => if p.1 == k then (p.1, v) else p))
            = List.find? (fun p => p.1 == k') (ys.map (fun p => if p.1 == k then (p.1, v) else p))
            from List.find?_cons_of_neg _ hy,
          show List.find? (fun p => p.1 == k') (y :: ys) = List.find? (fun p => p.1 == k') ys
            from List.find?_cons_of_neg _ hy]
        exact ih

/-- Reading back a freshly set counter. -/
lemma counterGet_set_self (cs : Counters) (k : String × String) (v : Nat) :
    counterGet (counterSet cs k v) k = v := by
  unfold counterGet counterSet
  by_cases hf : (cs.find? (fun p => p.1 == k)).isSome
  · rw [if_pos hf, find?_map_update_self]
    cases hc : cs.find? (fun p => p.1 == k) with
    | none => rw [hc] at hf; simp at hf
    | some w => simp
  · rw [if_neg hf, find?_append_gen]
    cases hc : cs.find? (fun p => p.1 == k) with
    | none => simp [Option.orElse, List.find?]
    | some w => rw [hc] at hf; simp at hf

/-- Other counter keys are unchanged by a set. -/
lemma counterGet_set_other (cs : Counters) (k k' : String × String) (v : Nat)
    (hne : k' ≠ k) : counterGet (counterSet cs k v) k' = counterGet cs k' := by
  unfold counterGet counterSet
  by_cases hf : (cs.find? (fun p => p.1 == k)).isSome
  · rw [if_pos hf, find?_map_update_other cs k k' v hne]
  · rw [if_neg hf, find?_append_gen]
    have hk : ((k, v).1 == k') = false := by
      simp only [beq_eq_false_iff_ne, ne_eq]
      exact fun he => hne he.symm
    rw [List.find?_singleton, if_neg (by simp [hk])]
    cases hc : cs.find? (fun p => p.1 == k') <;> simp [Option.orElse]

/-- Looking up anything but the appended id is unchanged. -/
lemma getNode_append_ne {g : Graph} (id : String) (attrs : NodeAttrs) {x : String}
    (hne : x ≠ id) :
    getNode { g with nodes := g.nodes ++ [(id, attrs)] } x = getNode g x := by
  unfold getNode
  rw [find?_append_gen]
  cases hf : g.nodes.find? (fun q => q.1 == x) with
  | none =>
    rw [List.find?_singleton, if_neg (by simp [Ne.symm hne])]
    simp [Option.orElse]
  | some v => simp [Option.orElse]

/-- `add_node` on an unbound id is a pure append. -/
lemma add_node_fresh {g : Graph} {id : String} (h : hasNode g id = false)
    (attrs : NodeAttrs) :
    add_node g id attrs = { g with nodes := g.nodes ++ [(id, attrs)] } := by
  unfold add_node
  rw [if_neg (by simp [h])]

/-- `add_edge` between present endpoints is a pure edge append. -/
lemma add_edge_pure {g : Graph} {u v : String} (hu : hasNode g u = true)
    (hv : hasNode g v = true) (rel : String) (a : Option String) :
    add_edge g u v rel a =
      { g with edges := g.edges ++ [{ src := u, tgt := v, relation := rel, anchor := a }] } := by
  simp only [add_edge, hu, hv, if_true]

/-- Ids of an extended node list. -/
lemma ids_append (g : Graph) (Δ : List (String × NodeAttrs)) :
    ids { g with nodes := g.nodes ++ Δ } = ids g ++ Δ.map (fun p => p.1) := by
  simp [ids]

/-- An absent node is not among the ids. -/
lemma not_mem_ids_of_hasNode_false {g : Graph} {x : String} (h : hasNode g x = false) :
    x ∉ ids g := by
  apply getNode_none_iff.mp
  unfold hasNode at h
  cases hg : getNode g x with
  | none => rfl
  | some b => rw [hg] at h; simp at h

/-- Node classification is monotone in counters and graph size. -/
lemma NodeClass_mono {P : List String} {st st' : BState} {pr : String × NodeAttrs}
    (h : NodeClass P st pr)
    (hc : ∀ k, counterGet st.counters k ≤ counterGet st'.counters k)
    (hn : st.g.nodes.length ≤ st'.g.nodes.length) : NodeClass P st' pr := by
  rcases h with h1 | ⟨p, t, i, hp, hid, ht, hlt, hpg, hty⟩ | h3 | ⟨p, n, hp, hid, hlt, hpg⟩
  · exact Or.inl h1
  · exact Or.inr (Or.inl ⟨p, t, i, hp, hid, ht, lt_of_lt_of_le hlt (hc (p, t)), hpg, hty⟩)
  · exact Or.inr (Or.inr (Or.inl h3))
  · exact Or.inr (Or.inr (Or.inr ⟨p, n, hp, hid, lt_of_lt_of_le hlt hn, hpg⟩))

/-- `containsInto` distributes over appended edges. -/
lemma containsInto_edges_append {g g' : Graph} {es : List Edge}
    (he : g'.edges = g.edges ++ es) (x : String) :
    containsInto g' x =
      containsInto g x ++ es.filter (fun e => e.relation == "CONTAINS" && e.tgt == x) := by
  unfold containsInto
  rw [he, List.filter_append]

/-- `extCount` over appended edges. -/
lemma extCount_edges_append {g g' : Graph} {es : List Edge}
    (he : g'.edges = g.edges ++ es) (u : String) :
    extCount g' u = extCount g u +
      (es.filter (fun e => e.relation == "LINKS_TO_EXTERNAL_PAGE" && e.tgt == u)).length := by
  unfold extCount
  rw [he, List.filter_append, List.length_append]

/-- Under the invariant, an unbound id has no incoming `CONTAINS` edge. -/
lemma containsInto_nil_of_not_mem {P : List String} {st : BState} (hInv : Inv P st)
    {x : String} (hx : x ∉ ids st.g) : containsInto st.g x = [] := by
  unfold containsInto
  rw [List.filter_eq_nil]
  intro e he
  intro hcond
  simp only [Bool.and_eq_true, beq_iff_eq] at hcond
  obtain ⟨p, t, i, _, _, _, hpage, _⟩ := hInv.contains e he hcond.1
  rw [hcond.2] at hpage
  unfold pageOf at hpage
  rcases Option.bind_eq_some.mp hpage with ⟨a, ha, _⟩
  exact hx (by
    by_contra hmem
    rw [getNode_none_iff.mpr hmem] at ha
    cases ha)

/-- `https` prefixes refine `http` prefixes. -/
lemma https_imp_http {s : String} (h : strStartsWith s "https" = true) :
    strStartsWith s "http" = true := by
  unfold strStartsWith at h ⊢
  rw [List.isPrefixOf_iff_prefix] at h ⊢
  exact List.IsPrefix.trans (by decide) h

/-- A target resolving to a known page is never classified external. -/
lemma isExternalHref_false_of_known {kp : List String} {href : String}
    (h : last_segment href ∈ kp) : isExternalHref kp href = false := by
  unfold isExternalHref
  simp [h]

/-- A target matching neither `http` nor `https` is never classified
external. -/
lemma isExternalHref_false_of_not_http {kp : List String} {href : String}
    (h1 : strStartsWith href "http" = false) (h2 : strStartsWith href "https" = false) :
    isExternalHref kp href = false := by
  unfold isExternalHref
  rw [h1, h2]
  simp

/-- The attribute dict of a visited element always owns its page. -/
lemma mkNodeAttrs_page (n : String) (a : List (String × String)) (cs : List HNode)
    (anc : List HNode) (p : String) (d : Nat) :
    (mkNodeAttrs (HNode.elem n a cs) anc p d).page = some p := by
  simp only [mkNodeAttrs]
  split_ifs <;> rfl

/-- The attribute dict of a visited element carries a structural type. -/
lemma mkNodeAttrs_type (n : String) (a : List (String × String)) (cs : List HNode)
    (anc : List HNode) (p : String) (d : Nat) :
    (mkNodeAttrs (HNode.elem n a cs) anc p d).type ∈
      [some "DOM_Element", some "Page_Title", some "Section_Heading", some "Paragraph"] := by
  simp only [mkNodeAttrs]
  split_ifs <;> simp

/-- The id the allocator is about to hand out is unbound. -/
lemma domId_fresh {P : List String} (hP : PagesOk P) {st : BState} (hInv : Inv P st)
    {p : String} (hp : p ∈ P) {tag : String} (htag : tagNameOk tag = true) :
    hasNode st.g (mkDomId p tag (counterGet st.counters (p, tag))) = false := by
  by_contra hcon
  rw [Bool.not_eq_false] at hcon
  unfold hasNode at hcon
  obtain ⟨a, ha⟩ := Option.isSome_iff_exists.mp hcon
  obtain ⟨pr, hpr, hk, _⟩ := exists_mem_of_getNode ha
  rcases hInv.classify pr hpr with ⟨hmem, _⟩ | ⟨p', t', i', _, hid, ht', hlt, _, _⟩
    | ⟨hhttp, _⟩ | ⟨p', n', _, hid, _, _⟩
  · exact endsHtml_ne_mkDomId (hP pr.1 hmem).1 hk
  · obtain ⟨hpe, hte, hie⟩ :=
      mkDomId_inj (tagNameOk_spec ht').1 (tagNameOk_spec htag).1 (hid.symm.trans hk)
    rw [hpe, hte, hie] at hlt
    exact lt_irrefl _ hlt
  · rw [hk] at hhttp
    rw [mkDomId_not_http (hP p hp).1 (hP p hp).2] at hhttp
    cases hhttp
  · exact mkDomId_ne_mkDataId (tagNameOk_spec htag).1 (tagNameOk_spec htag).2
      (hk.symm.trans hid)

/-- The data-link id about to be created is unbound. -/
lemma dataId_fresh {P : List String} (hP : PagesOk P) {st : BState} (hInv : Inv P st)
    {p : String} (hp : p ∈ P) :
    hasNode st.g (mkDataId p st.g.nodes.length) = false := by
  by_contra hcon
  rw [Bool.not_eq_false] at hcon
  unfold hasNode at hcon
  obtain ⟨a, ha⟩ := Option.isSome_iff_exists.mp hcon
  obtain ⟨pr, hpr, hk, _⟩ := exists_mem_of_getNode ha
  rcases hInv.classify pr hpr with ⟨hmem, _⟩ | ⟨p', t', i', _, hid, ht', _, _, _⟩
    | ⟨hhttp, _⟩ | ⟨p', n', _, hid, hlt, _⟩
  · exact endsHtml_ne_mkDataId (hP pr.1 hmem).1 hk
  · exact mkDomId_ne_mkDataId (tagNameOk_spec ht').1 (tagNameOk_spec ht').2
      (hid.symm.trans hk)
  · rw [hk] at hhttp
    rw [mkDataId_not_http (hP p hp).1 (hP p hp).2] at hhttp
    cases hhttp
  · obtain ⟨hpe, hne⟩ := mkDataId_inj (hid.symm.trans hk)
    rw [hne] at hlt
    exact lt_irrefl _ hlt

/-- `Post` is reflexive on invariant states. -/
lemma Post_rfl {P : List String} {st : BState} (hInv : Inv P st) : Post P st st [] := by
  refine ⟨hInv, ⟨[], by simp⟩, ⟨[], by simp⟩, fun k => le_rfl, ?_, fun u => by simp⟩
  intro u _
  exact ⟨fun h => by simpa using h, fun b h => h⟩

/-- `Post` composes along consecutive steps. -/
lemma Post_trans {P : List String} {st1 st2 st3 : BState}
    {A1 A2 : List (String × String)}
    (h1 : Post P st1 st2 A1) (h2 : Post P st2 st3 A2) :
    Post P st1 st3 (A1 ++ A2) := by
  obtain ⟨hi1, ⟨Δ1, hn1⟩, ⟨Δe1, he1⟩, hc1, hv1, hx1⟩ := h1
  obtain ⟨hi2, ⟨Δ2, hn2⟩, ⟨Δe2, he2⟩, hc2, hv2, hx2⟩ := h2
  refine ⟨hi2, ⟨Δ1 ++ Δ2, by rw [hn2, hn1, List.append_assoc]⟩,
    ⟨Δe1 ++ Δe2, by rw [he2, he1, List.append_assoc]⟩,
    fun k => le_trans (hc1 k) (hc2 k), ?_, ?_⟩
  · intro u hu
    constructor
    · intro hnone
      rw [List.filter_append]
      cases hfa : (A1.filter (fun a => a.1 == u)).head? with
      | none =>
        have hA1 : A1.filter (fun a => a.1 == u) = [] := List.head?_eq_none_iff.mp hfa
        have h21 : getNode st2.g u = none := by
          have := (hv1 u hu).1 hnone
          rw [hA1] at this
          simpa using this
        rw [hA1, List.nil_append]
        exact (hv2 u hu).1 h21
      | some a0 =>
        obtain ⟨t0, ht0⟩ := List.head?_eq_some_iff.mp hfa
        have h21 : getNode st2.g u = some (extAttrs u a0.2) := by
          have := (hv1 u hu).1 hnone
          rw [ht0] at this
          simpa using this
        have h31 := (hv2 u hu).2 _ h21
        rw [ht0]
        simpa using h31
    · intro b hb
      exact (hv2 u hu).2 b ((hv1 u hu).2 b hb)
  · intro u
    rw [hx2 u, hx1 u, List.filter_append, List.length_append]
    omega

/-- Effect of creating one structural node and its `CONTAINS` edge: the
invariant is preserved, the node and edge are appended, only the one
counter is bumped, and nothing visible to external-page ids changes. -/
lemma step_node_edge {P : List String} (hP : PagesOk P) {st : BState} (hInv : Inv P st)
    {p par : String} (hp : p ∈ P) (hpar : hasNode st.g par = true)
    (hparp : par = p ∨ pageOf st.g par = some p)
    {tag : String} {attrs : List (String × String)} {children : List HNode}
    (htag : tagNameOk tag = true) {anc : List HNode} {d : Nat}
    (nid : String) (A : NodeAttrs) (st2 : BState)
    (hnid : nid = mkDomId p tag (counterGet st.counters (p, tag)))
    (hA : A = mkNodeAttrs (HNode.elem tag attrs children) anc p d)
    (hst2 : st2 = { g := add_edge (add_node st.g nid A) par nid "CONTAINS" none
                    counters := counterSet st.counters (p, tag)
                      (counterGet st.counters (p, tag) + 1) }) :
    Inv P st2 ∧
    st2.g.nodes = st.g.nodes ++ [(nid, A)] ∧
    st2.g.edges = st.g.edges ++
      [{ src := par, tgt := nid, relation := "CONTAINS", anchor := none }] ∧
    (∀ k, counterGet st.counters k ≤ counterGet st2.counters k) ∧
    hasNode st2.g nid = true ∧ pageOf st2.g nid = some p ∧
    (∀ u, strStartsWith u "http" = true → getNode st2.g u = getNode st.g u) ∧
    (∀ u, extCount st2.g u = extCount st.g u) := by
  have hfresh : hasNode st.g nid = false := by
    rw [hnid]
    exact domId_fresh hP hInv hp htag
  have hnotmem : nid ∉ ids st.g := not_mem_ids_of_hasNode_false hfresh
  have hg1 : add_node st.g nid A = { st.g with nodes := st.g.nodes ++ [(nid, A)] } :=
    add_node_fresh hfresh A
  have hpar1 : hasNode { st.g with nodes := st.g.nodes ++ [(nid, A)] } par = true :=
    hasNode_append st.g _ par hpar
  have hnid1 : hasNode { st.g with nodes := st.g.nodes ++ [(nid, A)] } nid = true := by
    unfold hasNode
    rw [getNode_append_self st.g nid A hfresh]
    rfl
  have hst2g : st2.g = Graph.mk (st.g.nodes ++ [(nid, A)])
      (st.g.edges ++ [{ src := par, tgt := nid, relation := "CONTAINS", anchor := none }]) := by
    rw [hst2]
    show add_edge (add_node st.g nid A) par nid "CONTAINS" none = _
    rw [hg1, add_edge_pure hpar1 hnid1]
  have hst2c : st2.counters = counterSet st.counters (p, tag)
      (counterGet st.counters (p, tag) + 1) := by rw [hst2]
  have hnodesEq : st2.g.nodes = st.g.nodes ++ [(nid, A)] := by rw [hst2g]
  have hedgesEq : st2.g.edges = st.g.edges ++
      [{ src := par, tgt := nid, relation := "CONTAINS", anchor := none }] := by rw [hst2g]
  have hext : ∃ Δ, st2.g.nodes = st.g.nodes ++ Δ := ⟨_, hnodesEq⟩
  have hcmono : ∀ k, counterGet st.counters k ≤ counterGet st2.counters k := by
    intro k
    rw [hst2c]
    by_cases hk : k = (p, tag)
    · rw [hk, counterGet_set_self]
      exact Nat.le_succ _
    · rw [counterGet_set_other _ _ _ _ hk]
  have hlen : st.g.nodes.length ≤ st2.g.nodes.length := by
    rw [hnodesEq]
    simp
  have hgetnid : getNode st2.g nid = some A := by
    have := getNode_append_self st.g nid A hfresh
    unfold getNode at this ⊢
    rw [hnodesEq]
    exact this
  have hpagenid : pageOf st2.g nid = some p := by
    unfold pageOf
    rw [hgetnid, hA]
    simp [mkNodeAttrs_page]
  have hgetpres : ∀ x, x ≠ nid → getNode st2.g x = getNode st.g x := by
    intro x hx
    have := getNode_append_ne (g := st.g) nid A hx
    unfold getNode at this ⊢
    rw [hnodesEq]
    exact this
  refine ⟨⟨?_, ?_, ?_, ?_⟩, hnodesEq, hedgesEq, hcmono, ?_, hpagenid, ?_, ?_⟩
  · -- nodup
    have : ids st2.g = ids st.g ++ [nid] := by
      unfold ids
      rw [hnodesEq]
      simp
    rw [this]
    exact List.Nodup.append hInv.nodup (List.nodup_singleton _)
      (fun a ha hmem => by
        simp only [List.mem_singleton] at hmem
        exact hnotmem (hmem ▸ ha))
  · -- classify
    intro pr hpr
    rw [hnodesEq] at hpr
    rcases List.mem_append.mp hpr with hold | hnew
    · exact NodeClass_mono (hInv.classify pr hold) hcmono hlen
    · simp only [List.mem_singleton] at hnew
      subst hnew
      refine Or.inr (Or.inl ⟨p, tag, counterGet st.counters (p, tag), hp, hnid, htag, ?_, ?_, ?_⟩)
      · rw [hst2c, counterGet_set_self]
        exact Nat.lt_succ_self _
      · rw [hA]
        exact mkNodeAttrs_page _ _ _ _ _ _
      · rw [hA]
        exact mkNodeAttrs_type _ _ _ _ _ _
  · -- contains
    intro e he hrel
    rw [hedgesEq] at he
    rcases List.mem_append.mp he with hold | hnew
    · obtain ⟨p', t', i', hp', htgt, ht', hpage, hsrc⟩ := hInv.contains e hold hrel
      refine ⟨p', t', i', hp', htgt, ht', pageOf_extend hext _ hpage, ?_⟩
      rcases hsrc with h | h
      · exact Or.inl h
      · exact Or.inr (pageOf_extend hext _ h)
    · simp only [List.mem_singleton] at hnew
      subst hnew
      refine ⟨p, tag, counterGet st.counters (p, tag), hp, hnid, htag, hpagenid, ?_⟩
      rcases hparp with h | h
      · exact Or.inl h
      · exact Or.inr (pageOf_extend hext _ h)
  · -- uniq
    intro pr hpr q hpage
    rw [hnodesEq] at hpr
    have hci := containsInto_edges_append hedgesEq pr.1
    rcases List.mem_append.mp hpr with hold | hnew
    · have hne : nid ≠ pr.1 := fun he =>
        hnotmem (he ▸ List.mem_map_of_mem (fun x => x.1) hold)
      have hfilt : ([{ src := par, tgt := nid, relation := "CONTAINS", anchor := none }].filter
          (fun e => e.relation == "CONTAINS" && e.tgt == pr.1) : List Edge) = [] := by
        simp [hne]
      rw [hci, hfilt, List.append_nil]
      exact hInv.uniq pr hold q hpage
    · simp only [List.mem_singleton] at hnew
      subst hnew
      have hfilt : ([{ src := par, tgt := nid, relation := "CONTAINS", anchor := none }].filter
          (fun e => e.relation == "CONTAINS" && e.tgt == nid) : List Edge)
          = [{ src := par, tgt := nid, relation := "CONTAINS", anchor := none }] := by
        simp
      rw [hci, containsInto_nil_of_not_mem hInv hnotmem, hfilt]
      rfl
  · -- hasNode nid
    unfold hasNode
    rw [hgetnid]
    rfl
  · -- http lookups unchanged
    intro u hu
    refine hgetpres u (fun he => ?_)
    rw [he, hnid] at hu
    rw [mkDomId_not_http (hP p hp).1 (hP p hp).2] at hu
    cases hu
  · -- ext edge count unchanged
    intro u
    have hfilt : ([{ src := par, tgt := nid, relation := "CONTAINS", anchor := none }].filter
        (fun e => e.relation == "LINKS_TO_EXTERNAL_PAGE" && e.tgt == u) : List Edge) = [] := by
      simp
    rw [extCount_edges_append hedgesEq, hfilt]
    rfl

/-- Lookups are unchanged by appending entries under other keys. -/
lemma getNode_append_none {g g' : Graph} {Δ : List (String × NodeAttrs)}
    (hnodes : g'.nodes = g.nodes ++ Δ) {x : String} (hx : ∀ pr ∈ Δ, pr.1 ≠ x) :
    getNode g' x = getNode g x := by
  unfold getNode
  rw [hnodes, find?_append_gen]
  have hΔ : Δ.find? (fun q => q.1 == x) = none :=
    List.find?_eq_none.mpr (fun pr hpr => by simp [hx pr hpr])
  rw [hΔ]
  cases hf : g.nodes.find? (fun q => q.1 == x) <;> simp [Option.orElse]

/-- A generated id is never the empty string. -/
lemma mkDomId_ne_empty (p t : String) (i : Nat) : mkDomId p t i ≠ "" := by
  intro h
  have hd := congrArg String.data h
  rw [mkDomId_data] at hd
  simp at hd

/-- The invariant survives appending fresh page-less nodes and
non-`CONTAINS` edges. -/
lemma Inv_step {P : List String} {st st2 : BState} (hInv : Inv P st)
    (Δ : List (String × NodeAttrs)) (Δe : List Edge)
    (hnodes : st2.g.nodes = st.g.nodes ++ Δ)
    (hedges : st2.g.edges = st.g.edges ++ Δe)
    (hΔ : ∀ pr ∈ Δ, pr.1 ∉ ids st.g ∧ pr.2.page = none ∧ NodeClass P st2 pr)
    (hΔnd : (Δ.map (fun pr => pr.1)).Nodup)
    (hc : ∀ k, counterGet st.counters k ≤ counterGet st2.counters k)
    (hΔe : ∀ e ∈ Δe, (e.relation == "CONTAINS") = false) :
    Inv P st2 := by
  have hext : ∃ Δ0, st2.g.nodes = st.g.nodes ++ Δ0 := ⟨Δ, hnodes⟩
  have hlen : st.g.nodes.length ≤ st2.g.nodes.length := by rw [hnodes]; simp
  refine ⟨?_, ?_, ?_, ?_⟩
  · have hids : ids st2.g = ids st.g ++ Δ.map (fun pr => pr.1) := by
      unfold ids
      rw [hnodes]
      simp
    rw [hids]
    refine List.Nodup.append hInv.nodup hΔnd ?_
    intro a ha hb
    rcases List.mem_map.mp hb with ⟨pr, hpr, he⟩
    exact (hΔ pr hpr).1 (by rw [he]; exact ha)
  · intro pr hpr
    rw [hnodes] at hpr
    rcases List.mem_append.mp hpr with hold | hnew
    · exact NodeClass_mono (hInv.classify pr hold) hc hlen
    · exact (hΔ pr hnew).2.2
  · intro e he hrel
    rw [hedges] at he
    rcases List.mem_append.mp he with hold | hnew
    · obtain ⟨p', t', i', hp', htgt, ht', hpage, hsrc⟩ := hInv.contains e hold hrel
      refine ⟨p', t', i', hp', htgt, ht', pageOf_extend hext _ hpage, ?_⟩
      rcases hsrc with h | h
      · exact Or.inl h
      · exact Or.inr (pageOf_extend hext _ h)
    · have := hΔe e hnew
      rw [hrel] at this
      simp at this
  · intro pr hpr q hpage
    rw [hnodes] at hpr
    have hci := containsInto_edges_append hedges pr.1
    have hfilt : Δe.filter (fun e => e.relation == "CONTAINS" && e.tgt == pr.1) = [] :=
      List.filter_eq_nil_iff.mpr (fun e he => by simp [hΔe e he])
    rcases List.mem_append.mp hpr with hold | hnew
    · rw [hci, hfilt, List.append_nil]
      exact hInv.uniq pr hold q hpage
    · rw [(hΔ pr hnew).2.1] at hpage
      cases hpage

/-- The invariant survives appending one non-`CONTAINS` edge. -/
lemma Inv_add_edge_only {P : List String} {st st2 : BState} (hInv : Inv P st) (e : Edge)
    (hnodes : st2.g.nodes = st.g.nodes)
    (hedges : st2.g.edges = st.g.edges ++ [e])
    (hc : st2.counters = st.counters)
    (he : (e.relation == "CONTAINS") = false) : Inv P st2 :=
  Inv_step hInv [] [e] (by rw [hnodes, List.append_nil]) hedges
    (by intro q hq; cases hq) (by simp) (fun k => le_of_eq (by rw [hc]))
    (by intro y hy; rw [List.mem_singleton] at hy; subst hy; exact he)

/-- The invariant survives appending one fresh page-less node and one
non-`CONTAINS` edge. -/
lemma Inv_add_node_edge {P : List String} {st st2 : BState} (hInv : Inv P st)
    (x : String × NodeAttrs) (e : Edge)
    (hnodes : st2.g.nodes = st.g.nodes ++ [x])
    (hedges : st2.g.edges = st.g.edges ++ [e])
    (hc : st2.counters = st.counters)
    (hx1 : x.1 ∉ ids st.g) (hx2 : x.2.page = none) (hx3 : NodeClass P st2 x)
    (he : (e.relation == "CONTAINS") = false) : Inv P st2 :=
  Inv_step hInv [x] [e] hnodes hedges
    (by intro q hq; rw [List.mem_singleton] at hq; subst hq; exact ⟨hx1, hx2, hx3⟩)
    (by simp) (fun k => le_of_eq (by rw [hc]))
    (by intro y hy; rw [List.mem_singleton] at hy; subst hy; exact he)

/-- `Post` for a step that visits no external anchor: nothing appended
starts with `http` and no external link edge is added. -/
lemma Post_nil {P : List String} {st st2 : BState} (hInv2 : Inv P st2)
    (Δ : List (String × NodeAttrs)) (Δe : List Edge)
    (hnodes : st2.g.nodes = st.g.nodes ++ Δ)
    (hedges : st2.g.edges = st.g.edges ++ Δe)
    (hc : ∀ k, counterGet st.counters k ≤ counterGet st2.counters k)
    (hΔhttp : ∀ pr ∈ Δ, strStartsWith pr.1 "http" = false)
    (hΔe : ∀ e ∈ Δe, (e.relation == "LINKS_TO_EXTERNAL_PAGE") = false) :
    Post P st st2 [] := by
  refine ⟨hInv2, ⟨Δ, hnodes⟩, ⟨Δe, hedges⟩, hc, ?_, ?_⟩
  · intro u hu
    have hne : ∀ pr ∈ Δ, pr.1 ≠ u := by
      intro pr hpr he
      have hf := hΔhttp pr hpr
      rw [he, hu] at hf
      exact Bool.noConfusion hf
    have hgu : getNode st2.g u = getNode st.g u := getNode_append_none hnodes hne
    exact ⟨fun h0 => by rw [hgu, h0]; rfl, fun b hb => by rw [hgu]; exact hb⟩
  · intro u
    rw [extCount_edges_append hedges,
      show Δe.filter (fun e => e.relation == "LINKS_TO_EXTERNAL_PAGE" && e.tgt == u) = []
        from List.filter_eq_nil_iff.mpr (fun e he => by simp [hΔe e he])]
    rfl

/-- `Post []` for appending one non-external edge. -/
lemma Post_nil_edge {P : List String} {st st2 : BState} (hInv2 : Inv P st2) (e : Edge)
    (hnodes : st2.g.nodes = st.g.nodes)
    (hedges : st2.g.edges = st.g.edges ++ [e])
    (hc : st2.counters = st.counters)
    (he : (e.relation == "LINKS_TO_EXTERNAL_PAGE") = false) : Post P st st2 [] :=
  Post_nil hInv2 [] [e] (by rw [hnodes, List.append_nil]) hedges
    (fun k => le_of_eq (by rw [hc])) (by intro q hq; cases hq)
    (by intro y hy; rw [List.mem_singleton] at hy; subst hy; exact he)

/-- `Post []` for appending one non-`http` node and one non-external
edge. -/
lemma Post_nil_node_edge {P : List String} {st st2 : BState} (hInv2 : Inv P st2)
    (x : String × NodeAttrs) (e : Edge)
    (hnodes : st2.g.nodes = st.g.nodes ++ [x])
    (hedges : st2.g.edges = st.g.edges ++ [e])
    (hc : st2.counters = st.counters)
    (hx : strStartsWith x.1 "http" = false)
    (he : (e.relation == "LINKS_TO_EXTERNAL_PAGE") = false) : Post P st st2 [] :=
  Post_nil hInv2 [x] [e] hnodes hedges (fun k => le_of_eq (by rw [hc]))
    (by intro q hq; rw [List.mem_singleton] at hq; subst hq; exact hx)
    (by intro y hy; rw [List.mem_singleton] at hy; subst hy; exact he)

/-- `add_edge` with a present source and an absent target auto-creates
the target with an empty attribute dict. -/
lemma add_edge_auto_tgt {g : Graph} {u v : String} (hu : hasNode g u = true)
    (hv : hasNode g v = false) (rel : String) (a : Option String) :
    add_edge g u v rel a =
      Graph.mk (g.nodes ++ [((v, {}) : String × NodeAttrs)])
        (g.edges ++ [{ src := u, tgt := v, relation := rel, anchor := a }]) := by
  simp [add_edge, hu, hv]

/-- Creating a fresh node and then an edge onto it from a present source
appends exactly that node and that edge. -/
lemma add_node_then_edge {g : Graph} {x u : String} {a : NodeAttrs}
    (hx : hasNode g x = false) (hu : hasNode g u = true) (rel : String)
    (an : Option String) :
    add_edge (add_node g x a) u x rel an =
      Graph.mk (g.nodes ++ [(x, a)])
        (g.edges ++ [{ src := u, tgt := x, relation := rel, anchor := an }]) := by
  rw [add_node_fresh hx, add_edge_pure (hasNode_append g _ u hu)
    (by unfold hasNode; rw [getNode_append_self g x a hx]; rfl)]

/-- One appended external edge changes exactly its target's count. -/
lemma extCount_append_one {g g' : Graph} {e : Edge}
    (hedges : g'.edges = g.edges ++ [e])
    (hrel : e.relation = "LINKS_TO_EXTERNAL_PAGE") (u : String) :
    extCount g' u = extCount g u + (if (e.tgt == u) = true then 1 else 0) := by
  rw [extCount_edges_append hedges]
  by_cases h : (e.tgt == u) = true
  · simp [h, hrel]
  · simp [h, hrel]

/-- First-match view of a one-anchor list. -/
lemma head_filter_pair (v txt u : String) :
    ((([(v, txt)] : List (String × String)).filter (fun a => a.1 == u)).head?).map
      (fun a => extAttrs u a.2)
    = if (v == u) = true then some (extAttrs u txt) else none := by
  by_cases h : (v == u) = true <;> simp [h]

/-- Anchor count of a one-anchor list at a target. -/
lemma len_filter_pair (v txt u : String) :
    (([(v, txt)] : List (String × String)).filter (fun a => a.1 == u)).length
    = if (v == u) = true then 1 else 0 := by
  by_cases h : (v == u) = true <;> simp [h]

/-- Unfolding of the per-page external-anchor list at a non-skipped
element: its own contribution followed by its children's. -/
lemma ext_anchors_eq (P : List String) (n : String) (a : List (String × String))
    (cs : List HNode) (h : ¬ n ∈ skipTags) :
    ext_anchors P (HNode.elem n a cs) =
      ext_anchor_self P (HNode.elem n a cs) ++ ext_anchors_list P cs := by
  rw [ext_anchors]
  rw [if_neg h]
  rfl

/-- Lookup of a freshly appended node, equation form. -/
lemma getNode_append_self_eq {g g' : Graph} {x : String} {a : NodeAttrs}
    (hnodes : g'.nodes = g.nodes ++ [(x, a)]) (h : hasNode g x = false) :
    getNode g' x = some a := by
  unfold hasNode at h
  unfold getNode at h ⊢
  rw [hnodes, find?_append_gen]
  cases hf : g.nodes.find? (fun q => q.1 == x) with
  | none => simp [Option.orElse, List.find?]
  | some w => rw [hf] at h; simp at h

/-- `Post` of reusing an existing external node: only the edge appends. -/
lemma Post_ext_reuse {P : List String} {st st2 : BState} (hInv : Inv P st)
    {nid v txt : String} (hhas : hasNode st.g v = true)
    (hnodes : st2.g.nodes = st.g.nodes)
    (hedges : st2.g.edges = st.g.edges ++
      [{ src := nid, tgt := v, relation := "LINKS_TO_EXTERNAL_PAGE", anchor := some txt }])
    (hc : st2.counters = st.counters) :
    Post P st st2 [(v, txt)] := by
  refine ⟨Inv_add_edge_only hInv _ hnodes hedges hc (by simp),
    ⟨[], by rw [hnodes, List.append_nil]⟩, ⟨_, hedges⟩,
    fun k => le_of_eq (by rw [hc]), ?_, ?_⟩
  · intro u hu
    have hgu : getNode st2.g u = getNode st.g u := by
      unfold getNode
      rw [hnodes]
    refine ⟨?_, fun b hb => by rw [hgu]; exact hb⟩
    intro h0
    rw [hgu, h0, head_filter_pair]
    cases huf : (v == u) with
    | true =>
      exfalso
      have he2 : v = u := by simpa using huf
      rw [he2] at hhas
      unfold hasNode at hhas
      rw [h0] at hhas
      exact Bool.noConfusion hhas
    | false => simp [huf]
  · intro u
    rw [extCount_append_one hedges rfl u, len_filter_pair]

/-- `Post` of creating an external node at first sighting: the node and
its edge append, and the node is visible at its URL key. -/
lemma Post_ext_new {P : List String} {st st2 : BState} (hInv : Inv P st)
    {nid v txt : String} (hhas : hasNode st.g v = false)
    (hv : strStartsWith v "http" = true)
    (hnodes : st2.g.nodes = st.g.nodes ++ [(v, extAttrs v txt)])
    (hedges : st2.g.edges = st.g.edges ++
      [{ src := nid, tgt := v, relation := "LINKS_TO_EXTERNAL_PAGE", anchor := some txt }])
    (hc : st2.counters = st.counters) :
    Post P st st2 [(v, txt)] := by
  have hnotmem := not_mem_ids_of_hasNode_false hhas
  refine ⟨Inv_add_node_edge hInv _ _ hnodes hedges hc hnotmem rfl
      (Or.inr (Or.inr (Or.inl ⟨hv, rfl⟩))) (by simp),
    ⟨_, hnodes⟩, ⟨_, hedges⟩, fun k => le_of_eq (by rw [hc]), ?_, ?_⟩
  · intro u hu
    cases huf : (v == u) with
    | true =>
      have he2 : v = u := by simpa using huf
      subst he2
      refine ⟨fun h0 => ?_, fun b hb => ?_⟩
      · rw [getNode_append_self_eq hnodes hhas, head_filter_pair]
        simp
      · unfold hasNode at hhas
        rw [hb] at hhas
        exact Bool.noConfusion hhas
    | false =>
      have hne2 : v ≠ u := by simpa using huf
      have hgu : getNode st2.g u = getNode st.g u := by
        refine getNode_append_none hnodes ?_
        intro q hq
        rw [List.mem_singleton] at hq
        subst hq
        exact hne2
      refine ⟨fun h0 => ?_, fun b hb => by rw [hgu]; exact hb⟩
      rw [hgu, h0, head_filter_pair]
      simp [huf]
  · intro u
    rw [extCount_append_one hedges rfl u, len_filter_pair]

/-- Effect of the anchor-handling block on the builder state: the
invariant is preserved and `Post` records exactly the element's own
external-anchor contribution. -/
lemma step_anchor {P : List String} (hP : PagesOk P) {st : BState} (hInv : Inv P st)
    {p nid : String} (hp : p ∈ P) (hnid : hasNode st.g nid = true)
    (el : HNode) (st2 : BState)
    (hst2 : st2 = { g := process_anchor P el nid p st.g, counters := st.counters }) :
    Post P st st2 (ext_anchor_self P el) := by
  subst hst2
  cases el with
  | text s => exact Post_rfl hInv
  | elem name attrs children =>
    cases hA : (name == "a") with
    | false =>
      have hg : process_anchor P (HNode.elem name attrs children) nid p st.g = st.g := by
        simp [process_anchor, hname, hA]
      have hself : ext_anchor_self P (HNode.elem name attrs children) = [] := by
        simp [ext_anchor_self, hA]
      rw [hg, hself]
      exact Post_rfl hInv
    | true =>
      cases hhr : attrs.find? (fun q => q.1 == "href") with
      | none =>
        have hg : process_anchor P (HNode.elem name attrs children) nid p st.g = st.g := by
          simp [process_anchor, hname, hA, getAttr, hhr]
        have hself : ext_anchor_self P (HNode.elem name attrs children) = [] := by
          simp [ext_anchor_self, hA, hhr]
        rw [hg, hself]
        exact Post_rfl hInv
      | some pr =>
        by_cases htgt : last_segment (frag_strip pr.2) ∈ P
        · -- known-page target: a LINKS_TO_PAGE edge, no external anchor
          have hg : process_anchor P (HNode.elem name attrs children) nid p st.g =
              add_edge st.g nid (last_segment (frag_strip pr.2)) "LINKS_TO_PAGE"
                (some (extract_link_text (HNode.elem name attrs children))) := by
            simp [process_anchor, hname, hA, getAttr, hhr, htgt]
          have hself : ext_anchor_self P (HNode.elem name attrs children) = [] := by
            simp [ext_anchor_self, hA, hhr, isExternalHref_false_of_known htgt]
          rw [hg, hself]
          cases hvt : hasNode st.g (last_segment (frag_strip pr.2)) with
          | true =>
            rw [add_edge_pure hnid hvt _ _]
            exact Post_nil_edge (Inv_add_edge_only hInv _ rfl rfl rfl (by simp))
              _ rfl rfl rfl (by simp)
          | false =>
            rw [add_edge_auto_tgt hnid hvt _ _]
            exact Post_nil_node_edge
              (Inv_add_node_edge hInv _ _ rfl rfl rfl
                (not_mem_ids_of_hasNode_false hvt) rfl (Or.inl ⟨htgt, rfl⟩) (by simp))
              _ _ rfl rfl rfl (hP _ htgt).2 (by simp)
        · by_cases hhttp : (strStartsWith (frag_strip pr.2) "http"
              || strStartsWith (frag_strip pr.2) "https") = true
          · -- external target
            have hhttp1 : strStartsWith (frag_strip pr.2) "http" = true := by
              rcases (by simpa using hhttp :
                  strStartsWith (frag_strip pr.2) "http" = true ∨
                  strStartsWith (frag_strip pr.2) "https" = true) with h | h
              · exact h
              · exact https_imp_http h
            have hext : isExternalHref P (frag_strip pr.2) = true := by
              simp only [isExternalHref, Bool.and_eq_true, Bool.not_eq_true']
              exact ⟨by simp [htgt], hhttp⟩
            have hself : ext_anchor_self P (HNode.elem name attrs children) =
                [(frag_strip pr.2, extract_link_text (HNode.elem name attrs children))] := by
              simp [ext_anchor_self, hA, hhr, hext]
            rw [hself]
            cases hhasE : hasNode st.g (frag_strip pr.2) with
            | true =>
              -- reuse the existing External_Page node
              have hg : process_anchor P (HNode.elem name attrs children) nid p st.g =
                  add_edge st.g nid (frag_strip pr.2) "LINKS_TO_EXTERNAL_PAGE"
                    (some (extract_link_text (HNode.elem name attrs children))) := by
                simp [process_anchor, hname, hA, getAttr, hhr, htgt, hhttp, hhasE]
              rw [hg, add_edge_pure hnid hhasE _ _]
              exact Post_ext_reuse hInv hhasE rfl rfl rfl
            | false =>
              -- create the External_Page node at first sighting
              have hg : process_anchor P (HNode.elem name attrs children) nid p st.g =
                  add_edge (add_node st.g (frag_strip pr.2)
                      (extAttrs (frag_strip pr.2)
                        (extract_link_text (HNode.elem name attrs children))))
                    nid (frag_strip pr.2) "LINKS_TO_EXTERNAL_PAGE"
                    (some (extract_link_text (HNode.elem name attrs children))) := by
                simp [process_anchor, hname, hA, getAttr, hhr, htgt, hhttp, hhasE, extAttrs]
              rw [hg, add_node_then_edge hhasE hnid _ _]
              exact Post_ext_new hInv hhasE hhttp1 rfl rfl rfl
          · -- not a known page, not http: data link or nothing
            have hor : (strStartsWith (frag_strip pr.2) "http"
                || strStartsWith (frag_strip pr.2) "https") = false :=
              Bool.eq_false_iff.mpr hhttp
            have h12 : strStartsWith (frag_strip pr.2) "http" = false ∧
                strStartsWith (frag_strip pr.2) "https" = false := by
              constructor
              · cases hx : strStartsWith (frag_strip pr.2) "http"
                · rfl
                · rw [hx] at hor; exact Bool.noConfusion hor
              · cases hx : strStartsWith (frag_strip pr.2) "https"
                · rfl
                · rw [hx, Bool.or_true] at hor; exact Bool.noConfusion hor
            have hself : ext_anchor_self P (HNode.elem name attrs children) = [] := by
              simp [ext_anchor_self, hA, hhr,
                isExternalHref_false_of_not_http h12.1 h12.2]
            rw [hself]
            by_cases hmt : (strStartsWith (frag_strip pr.2) "mailto:"
                || strStartsWith (frag_strip pr.2) "tel:") = true
            · -- data-link node plus CONTAINS_DATA edge
              have hg : process_anchor P (HNode.elem name attrs children) nid p st.g =
                  add_edge (add_node st.g (p ++ "_DATA_" ++ toString st.g.nodes.length)
                      { type := some "Data_Link"
                        data_type := some (scheme_token (frag_strip pr.2))
                        value := some (frag_strip pr.2)
                        label := some (extract_link_text
                          (HNode.elem name attrs children)) })
                    nid (p ++ "_DATA_" ++ toString st.g.nodes.length) "CONTAINS_DATA"
                    (some (extract_link_text (HNode.elem name attrs children))) := by
                simp [process_anchor, hname, hA, getAttr, hhr, htgt, hor, hmt]
              have hdfresh : hasNode st.g (p ++ "_DATA_" ++ toString st.g.nodes.length)
                  = false := dataId_fresh hP hInv hp
              rw [hg, add_node_then_edge hdfresh hnid _ _]
              refine Post_nil_node_edge
                (Inv_add_node_edge hInv _ _ rfl rfl rfl
                  (not_mem_ids_of_hasNode_false hdfresh) rfl
                  (Or.inr (Or.inr (Or.inr
                    ⟨p, st.g.nodes.length, hp, rfl, ?_, rfl⟩))) (by simp))
                _ _ rfl rfl rfl
                (mkDataId_not_http (hP p hp).1 (hP p hp).2) (by simp)
              simp
            · -- anchor ignored entirely
              have hmtf : (strStartsWith (frag_strip pr.2) "mailto:"
                  || strStartsWith (frag_strip pr.2) "tel:") = false :=
                Bool.eq_false_iff.mpr hmt
              have hg : process_anchor P (HNode.elem name attrs children) nid p st.g
                  = st.g := by
                simp [process_anchor, hname, hA, getAttr, hhr, htgt, hor, hmtf]
              rw [hg]
              exact Post_rfl hInv

/-- A page file name is never empty. -/
lemma endsHtml_ne_empty {q : String} (h : strEndsWith q ".html" = true) : q ≠ "" := by
  intro he
  rw [he] at h
  exact absurd h (by decide)

/-- Found subtrees inherit collision-safe tag names. -/
lemma tags_ok_findInNode (name : String) (anc0 : List HNode) (t0 : HNode) :
    tags_ok t0 = true → ∀ r, findInNode name anc0 t0 = some r → tags_ok r.1 = true := by
  refine findInNode.induct name
    (fun anc t => tags_ok t = true → ∀ r, findInNode name anc t = some r →
      tags_ok r.1 = true)
    (fun anc cs => tags_ok_list cs = true → ∀ r, findInList name anc cs = some r →
      tags_ok r.1 = true)
    ?_ ?_ ?_ ?_ ?_ ?_ anc0 t0
  · intro anc a _ r hf
    simp [findInNode] at hf
  · intro anc a attrs cs hbeq ht r hf
    rw [findInNode, if_pos hbeq] at hf
    cases hf
    exact ht
  · intro anc a attrs cs hbeq ih ht r hf
    rw [findInNode, if_neg hbeq] at hf
    have hcs : tags_ok_list cs = true := by
      simp only [tags_ok, Bool.and_eq_true] at ht
      exact ht.2
    exact ih hcs r hf
  · intro anc _ r hf
    simp [findInList] at hf
  · intro anc c rest r0 hfc ihc hcs r hf
    have hc : tags_ok c = true := by
      simp only [tags_ok_list, Bool.and_eq_true] at hcs
      exact hcs.1
    rw [findInList] at hf
    rw [hfc] at hf
    cases hf
    exact ihc hc r0 hfc
  · intro anc c rest hfc ihc ihrest hcs r hf
    have hcs2 : tags_ok_list rest = true := by
      simp only [tags_ok_list, Bool.and_eq_true] at hcs
      exact hcs.2
    rw [findInList] at hf
    rw [hfc] at hf
    exact ihrest hcs2 r hf

/-- `tags_ok_findInNode` lifted to child lists. -/
lemma tags_ok_findInList (name : String) (anc : List HNode) (cs : List HNode)
    (hcs : tags_ok_list cs = true) (r : HNode × List HNode)
    (hf : findInList name anc cs = some r) : tags_ok r.1 = true := by
  induction cs with
  | nil => simp [findInList] at hf
  | cons c rest ih =>
    have hsplit : tags_ok c = true ∧ tags_ok_list rest = true := by
      simpa only [tags_ok_list, Bool.and_eq_true] using hcs
    rw [findInList] at hf
    cases hfc : findInNode name anc c with
    | some r2 =>
      rw [hfc] at hf
      cases hf
      exact tags_ok_findInNode name anc c hsplit.1 _ hfc
    | none =>
      rw [hfc] at hf
      exact ih hsplit.2 hf

/-- The structural root selected for the traversal inherits
collision-safe tag names from the soup. -/
lemma tags_ok_select_root {soup : HNode} (h : tags_ok soup = true) :
    tags_ok (select_root soup).1 = true := by
  have hcl : tags_ok_list (childrenOf soup) = true := by
    cases soup with
    | text s => rfl
    | elem n a cs =>
      simp only [tags_ok, Bool.and_eq_true] at h
      exact h.2
  have hfw : ∀ name r, find_with_anc name soup = some r → tags_ok r.1 = true := by
    intro name r hr
    exact tags_ok_findInList name [soup] (childrenOf soup) hcl r hr
  unfold select_root
  cases hh : find_with_anc "html" soup with
  | some rh => exact hfw "html" rh hh
  | none =>
    cases hb : find_with_anc "body" soup with
    | some rb => exact hfw "body" rb hb
    | none => exact h

/-- The empty builder state satisfies the invariant. -/
lemma Inv_empty (P : List String) : Inv P {} := by
  refine ⟨List.nodup_nil, ?_, ?_, ?_⟩
  · intro pr hpr
    cases hpr
  · intro e he
    cases he
  · intro pr hpr
    cases hpr

/-- `add_node` on a bound id is an in-place merge. -/
lemma add_node_update {g : Graph} {id : String} (h : hasNode g id = true)
    (attrs : NodeAttrs) :
    add_node g id attrs = { g with nodes := updateNodes g.nodes id attrs } := by
  simp [add_node, h]

/-- `add_node` never touches the edges. -/
lemma add_node_edges (g : Graph) (id : String) (attrs : NodeAttrs) :
    (add_node g id attrs).edges = g.edges := by
  unfold add_node
  split <;> rfl

/-- `add_node` never shrinks the node list. -/
lemma add_node_length_ge (g : Graph) (id : String) (attrs : NodeAttrs) :
    g.nodes.length ≤ (add_node g id attrs).nodes.length := by
  unfold add_node
  split
  · show _ ≤ (updateNodes g.nodes id attrs).length
    unfold updateNodes
    rw [List.length_map]
  · simp

/-- Merging under a key finds the merged entry there. -/
lemma find?_updateNodes_self (ns : List (String × NodeAttrs)) (id : String)
    (attrs : NodeAttrs) :
    ((updateNodes ns id attrs).find? (fun q => q.1 == id))
      = (ns.find? (fun q => q.1 == id)).map (fun q => (q.1, mergeAttrs q.2 attrs)) := by
  unfold updateNodes
  induction ns with
  | nil => rfl
  | cons y ys ih =>
    simp only [List.map_cons]
    by_cases hy : (y.1 == id) = true
    · rw [if_pos hy,
        show List.find? (fun q => q.1 == id)
            ((y.1, mergeAttrs y.2 attrs) ::
              ys.map (fun p => if p.1 == id then (p.1, mergeAttrs p.2 attrs) else p))
          = some (y.1, mergeAttrs y.2 attrs)
          from List.find?_cons_of_pos _ hy,
        show List.find? (fun q => q.1 == id) (y :: ys) = some y
          from List.find?_cons_of_pos _ hy]
      rfl
    · rw [if_neg hy,
        show List.find? (fun q => q.1 == id)
            (y :: ys.map (fun p => if p.1 == id then (p.1, mergeAttrs p.2 attrs) else p))
          = List.find? (fun q => q.1 == id)
              (ys.map (fun p => if p.1 == id then (p.1, mergeAttrs p.2 attrs) else p))
          from List.find?_cons_of_neg _ hy,
        show List.find? (fun q => q.1 == id) (y :: ys) = List.find? (fun q => q.1 == id) ys
          from List.find?_cons_of_neg _ hy]
      exact ih

/-- Merging under a key leaves lookups of other keys untouched. -/
lemma find?_updateNodes_other (ns : List (String × NodeAttrs)) (id x : String)
    (attrs : NodeAttrs) (hne : x ≠ id) :
    ((updateNodes ns id attrs).find? (fun q => q.1 == x))
      = ns.find? (fun q => q.1 == x) := by
  unfold updateNodes
  induction ns with
  | nil => rfl
  | cons y ys ih =>
    simp only [List.map_cons]
    by_cases hy : (y.1 == x) = true
    · have hyid : (y.1 == id) = false := by
        have hx : y.1 = x := by simpa using hy
        simp [hx, hne]
      rw [if_neg (by simp [hyid]),
        show List.find? (fun q => q.1 == x)
            (y :: ys.map (fun p => if p.1 == id then (p.1, mergeAttrs p.2 attrs) else p))
          = some y
          from List.find?_cons_of_pos _ hy,
        show List.find? (fun q => q.1 == x) (y :: ys) = some y
          from List.find?_cons_of_pos _ hy]
    · by_cases hyid : (y.1 == id) = true
      · rw [if_pos hyid,
          show List.find? (fun q => q.1 == x)
              ((y.1, mergeAttrs y.2 attrs) ::
                ys.map (fun p => if p.1 == id then (p.1, mergeAttrs p.2 attrs) else p))
            = List.find? (fun q => q.1 == x)
                (ys.map (fun p => if p.1 == id then (p.1, mergeAttrs p.2 attrs) else p))
            from List.find?_cons_of_neg _ (by simpa using hy),
          show List.find? (fun q => q.1 == x) (y :: ys)
            = List.find? (fun q => q.1 == x) ys
            from List.find?_cons_of_neg _ hy]
        exact ih
      · rw [if_neg (by simp [hyid]),
          show List.find? (fun q => q.1 == x)
              (y :: ys.map (fun p => if p.1 == id then (p.1, mergeAttrs p.2 attrs) else p))
            = List.find? (fun q => q.1 == x)
                (ys.map (fun p => if p.1 == id then (p.1, mergeAttrs p.2 attrs) else p))
            from List.find?_cons_of_neg _ hy,
          show List.find? (fun q => q.1 == x) (y :: ys)
            = List.find? (fun q => q.1 == x) ys
            from List.find?_cons_of_neg _ hy]
        exact ih

/-- Merged lookup of the updated key. -/
lemma getNode_update_self {g : Graph} {id : String} {old : NodeAttrs} (attrs : NodeAttrs)
    (hold : getNode g id = some old) :
    getNode ({ g with nodes := updateNodes g.nodes id attrs } : Graph) id
      = some (mergeAttrs old attrs) := by
  unfold getNode at hold ⊢
  rw [show ({ g with nodes := updateNodes g.nodes id attrs } : Graph).nodes
      = updateNodes g.nodes id attrs from rfl, find?_updateNodes_self]
  cases hf : g.nodes.find? (fun q => q.1 == id) with
  | none => rw [hf] at hold; cases hold
  | some w =>
    rw [hf] at hold
    simp only [Option.map_some'] at hold ⊢
    rw [show w.2 = old from Option.some.inj hold]

/-- Lookups of other keys after a merge. -/
lemma getNode_update_other {g : Graph} {id x : String} (attrs : NodeAttrs)
    (hne : x ≠ id) :
    getNode ({ g with nodes := updateNodes g.nodes id attrs } : Graph) x
      = getNode g x := by
  unfold getNode
  rw [show ({ g with nodes := updateNodes g.nodes id attrs } : Graph).nodes
      = updateNodes g.nodes id attrs from rfl, find?_updateNodes_other _ _ _ _ hne]

/-- `add_node` leaves lookups of other keys untouched. -/
lemma getNode_add_node_other {g : Graph} {id x : String} (attrs : NodeAttrs)
    (hne : x ≠ id) : getNode (add_node g id attrs) x = getNode g x := by
  cases h : hasNode g id with
  | true =>
    rw [add_node_update h]
    exact getNode_update_other attrs hne
  | false =>
    rw [add_node_fresh h]
    exact getNode_append_ne id attrs hne

/-- `add_node` of an unbound id stores exactly the given attributes. -/
lemma getNode_add_node_fresh {g : Graph} {id : String} (h : hasNode g id = false)
    (attrs : NodeAttrs) : getNode (add_node g id attrs) id = some attrs := by
  rw [add_node_fresh h]
  exact getNode_append_self g id attrs h

/-- `add_node` of a bound id stores the merged attributes. -/
lemma getNode_add_node_update {g : Graph} {id : String} {old : NodeAttrs}
    (hold : getNode g id = some old) (attrs : NodeAttrs) :
    getNode (add_node g id attrs) id = some (mergeAttrs old attrs) := by
  have h : hasNode g id = true := by
    unfold hasNode
    rw [hold]
    rfl
  rw [add_node_update h]
  exact getNode_update_self attrs hold

/-- The added id is always bound afterwards. -/
lemma hasNode_add_node_self (g : Graph) (id : String) (attrs : NodeAttrs) :
    hasNode (add_node g id attrs) id = true := by
  cases h : hasNode g id with
  | false =>
    unfold hasNode
    rw [getNode_add_node_fresh h]
    rfl
  | true =>
    obtain ⟨b, hb⟩ := Option.isSome_iff_exists.mp (by unfold hasNode at h; exact h)
    unfold hasNode
    rw [getNode_add_node_update hb]
    rfl

/-- Merging keeps the key set. -/
lemma ids_updateNodes (ns : List (String × NodeAttrs)) (id : String) (attrs : NodeAttrs) :
    (updateNodes ns id attrs).map (fun p => p.1) = ns.map (fun p => p.1) := by
  unfold updateNodes
  rw [List.map_map]
  refine List.map_congr_left ?_
  intro x _
  by_cases h : (x.1 == id) = true <;> simp [Function.comp, h]

/-- Under the invariant, a node stored at a page-file key has no page
attribute. -/
lemma page_none_of_mem {P : List String} (hP : PagesOk P) {st : BState} (hInv : Inv P st)
    {pr : String × NodeAttrs} (hpr : pr ∈ st.g.nodes) (hq : pr.1 ∈ P) :
    pr.2.page = none := by
  rcases hInv.classify pr hpr with ⟨_, hpage⟩ | ⟨p', t', i', _, hid, _, _, _, _⟩
    | ⟨_, hpage⟩ | ⟨p', n', _, _, _, hpage⟩
  · exact hpage
  · exact absurd hid (endsHtml_ne_mkDomId (hP pr.1 hq).1)
  · exact hpage
  · exact hpage

/-- Registering a `Page_File` node (fresh or merged) keeps the
invariant. -/
lemma Inv_add_pf {P : List String} (hP : PagesOk P) {st : BState} (hInv : Inv P st)
    {q : String} (hq : q ∈ P) (t : String) :
    Inv P { st with
      g := add_node st.g q { type := some "Page_File", title := some t } } := by
  cases hh : hasNode st.g q with
  | false =>
    rw [add_node_fresh hh]
    refine Inv_step hInv [(q, { type := some "Page_File", title := some t })] []
      rfl (by rw [List.append_nil]) ?_ (by simp) (fun k => le_rfl)
      (by intro e he; cases he)
    intro pr hpr
    rw [List.mem_singleton] at hpr
    subst hpr
    exact ⟨not_mem_ids_of_hasNode_false hh, rfl, Or.inl ⟨hq, rfl⟩⟩
  | true =>
    rw [add_node_update hh]
    obtain ⟨b, hb⟩ := Option.isSome_iff_exists.mp (by unfold hasNode at hh; exact hh)
    have hbn : b.page = none := by
      obtain ⟨pr, hpr, hk, hv⟩ := exists_mem_of_getNode hb
      have := page_none_of_mem hP hInv hpr (by rw [hk]; exact hq)
      rw [hv] at this
      exact this
    have hpOf : ∀ x, pageOf ({ st.g with
        nodes := updateNodes st.g.nodes q
          { type := some "Page_File", title := some t } } : Graph) x
        = pageOf st.g x := by
      intro x
      by_cases hx : x = q
      · subst hx
        unfold pageOf
        rw [getNode_update_self _ hb, hb]
        show (mergeAttrs b _).page = b.page
        simp [mergeAttrs, hbn]
      · unfold pageOf
        rw [getNode_update_other _ hx]
    have hlen : st.g.nodes.length ≤ (updateNodes st.g.nodes q
        { type := some "Page_File", title := some t }).length := by
      unfold updateNodes
      rw [List.length_map]
    refine ⟨?_, ?_, ?_, ?_⟩
    · show ((updateNodes st.g.nodes q _).map (fun p => p.1)).Nodup
      rw [ids_updateNodes]
      exact hInv.nodup
    · intro pr hpr
      have hpr2 : pr ∈ (st.g.nodes.map (fun p =>
          if p.1 == q then (p.1, mergeAttrs p.2
            { type := some "Page_File", title := some t }) else p)) := hpr
      obtain ⟨x, hx, he⟩ := List.mem_map.mp hpr2
      by_cases hxq : (x.1 == q) = true
      · rw [if_pos hxq] at he
        have hxn : x.2.page = none :=
          page_none_of_mem hP hInv hx (by rw [show x.1 = q from by simpa using hxq]; exact hq)
        refine Or.inl ⟨?_, ?_⟩
        · rw [← he]
          show x.1 ∈ P
          rw [show x.1 = q from by simpa using hxq]
          exact hq
        · rw [← he]
          show (mergeAttrs x.2 _).page = none
          simp [mergeAttrs, hxn]
      · rw [if_neg hxq] at he
        subst he
        exact NodeClass_mono (hInv.classify x hx) (fun k => le_rfl) hlen
    · intro e he hrel
      obtain ⟨p', t', i', hp', htgt, ht', hpage, hsrc⟩ := hInv.contains e he hrel
      refine ⟨p', t', i', hp', htgt, ht', ?_, ?_⟩
      · rw [hpOf e.tgt]
        exact hpage
      · rcases hsrc with h | h
        · exact Or.inl h
        · exact Or.inr (by rw [hpOf e.src]; exact h)
    · intro pr hpr p' hpage
      have hpr2 : pr ∈ (st.g.nodes.map (fun p =>
          if p.1 == q then (p.1, mergeAttrs p.2
            { type := some "Page_File", title := some t }) else p)) := hpr
      obtain ⟨x, hx, he⟩ := List.mem_map.mp hpr2
      by_cases hxq : (x.1 == q) = true
      · rw [if_pos hxq] at he
        have hxn : x.2.page = none :=
          page_none_of_mem hP hInv hx (by rw [show x.1 = q from by simpa using hxq]; exact hq)
        rw [← he] at hpage
        have : (mergeAttrs x.2 { type := some "Page_File", title := some t }).page
            = none := by simp [mergeAttrs, hxn]
        rw [this] at hpage
        cases hpage
      · rw [if_neg hxq] at he
        subst he
        exact hInv.uniq x hx p' hpage

/-- `WPost` is reflexive on invariant states. -/
lemma WPost_rfl {P : List String} {st : BState} (hInv : Inv P st) : WPost P st st [] := by
  refine ⟨hInv, ⟨[], by simp⟩, fun k => le_rfl, ?_, ?_, fun u => by simp⟩
  · intro q b hb ht
    exact ⟨b, hb, ht⟩
  · intro u _
    exact ⟨fun h => by simpa using h, fun b h => h⟩

/-- Traversal-level `Post` weakens to the page-level relation. -/
lemma WPost_of_Post {P : List String} {st st' : BState} {A : List (String × String)}
    (h : Post P st st' A) : WPost P st st' A := by
  obtain ⟨hInv, hΔ, hΔe, hc, hview, hcnt⟩ := h
  refine ⟨hInv, hΔe, hc, ?_, hview, hcnt⟩
  intro q b hb ht
  exact ⟨b, getNode_extend hΔ q hb, ht⟩

/-- `WPost` composes along consecutive stages. -/
lemma WPost_trans {P : List String} {st1 st2 st3 : BState}
    {A1 A2 : List (String × String)}
    (h1 : WPost P st1 st2 A1) (h2 : WPost P st2 st3 A2) :
    WPost P st1 st3 (A1 ++ A2) := by
  obtain ⟨hi1, ⟨Δe1, he1⟩, hc1, ht1, hv1, hx1⟩ := h1
  obtain ⟨hi2, ⟨Δe2, he2⟩, hc2, ht2, hv2, hx2⟩ := h2
  refine ⟨hi2, ⟨Δe1 ++ Δe2, by rw [he2, he1, List.append_assoc]⟩,
    fun k => le_trans (hc1 k) (hc2 k), ?_, ?_, ?_⟩
  · intro q b hb ht
    obtain ⟨a1, ha1, hat1⟩ := ht1 q b hb ht
    exact ht2 q a1 ha1 hat1
  · intro u hu
    constructor
    · intro hnone
      rw [List.filter_append]
      cases hfa : (A1.filter (fun a => a.1 == u)).head? with
      | none =>
        have hA1 : A1.filter (fun a => a.1 == u) = [] := List.head?_eq_none_iff.mp hfa
        have h21 : getNode st2.g u = none := by
          have := (hv1 u hu).1 hnone
          rw [hA1] at this
          simpa using this
        rw [hA1, List.nil_append]
        exact (hv2 u hu).1 h21
      | some a0 =>
        obtain ⟨t0, ht0⟩ := List.head?_eq_some_iff.mp hfa
        have h21 : getNode st2.g u = some (extAttrs u a0.2) := by
          have := (hv1 u hu).1 hnone
          rw [ht0] at this
          simpa using this
        have h31 := (hv2 u hu).2 _ h21
        rw [ht0]
        simpa using h31
    · intro b hb
      exact (hv2 u hu).2 b ((hv1 u hu).2 b hb)
  · intro u
    rw [hx2 u, hx1 u, List.filter_append, List.length_append]
    omega

/-- The page-file registration step of `build_page` as a `WPost` stage. -/
lemma WPost_add_pf {P : List String} (hP : PagesOk P) {st : BState} (hInv : Inv P st)
    {q : String} (hq : q ∈ P) (t : String) :
    WPost P st { st with
      g := add_node st.g q { type := some "Page_File", title := some t } } [] := by
  refine ⟨Inv_add_pf hP hInv hq t, ⟨[], by rw [add_node_edges, List.append_nil]⟩,
    fun k => le_rfl, ?_, ?_, ?_⟩
  · intro x b hb ht
    by_cases hx : x = q
    · subst hx
      refine ⟨mergeAttrs b { type := some "Page_File", title := some t },
        getNode_add_node_update hb _, ?_⟩
      simp [mergeAttrs]
    · exact ⟨b, (getNode_add_node_other _ hx).trans hb, ht⟩
  · intro u hu
    have hne : u ≠ q := by
      intro he
      have := (hP q hq).2
      rw [← he, hu] at this
      exact Bool.noConfusion this
    have hgu : getNode (add_node st.g q
        { type := some "Page_File", title := some t }) u = getNode st.g u :=
      getNode_add_node_other _ hne
    exact ⟨fun h0 => hgu.trans h0, fun b hb => hgu.trans hb⟩
  · intro u
    show extCount (add_node st.g q _) u = _
    unfold extCount
    rw [add_node_edges]
    rfl

/-- Master traversal lemma: under the invariant, `build_dom_tree`
establishes `Post` with exactly the subtree's external anchors. -/
lemma build_dom_tree_post {P : List String} (hP : PagesOk P) (el : HNode)
    (anc : List HNode) (par p : String) (d : Nat) (st : BState) :
    Inv P st → p ∈ P → tags_ok el = true → hasNode st.g par = true → par ≠ "" →
    (par = p ∨ pageOf st.g par = some p) →
    Post P st (build_dom_tree P el anc par p d st) (ext_anchors P el) := by
  refine build_dom_tree.induct P
    (fun el anc par p d st =>
      Inv P st → p ∈ P → tags_ok el = true → hasNode st.g par = true → par ≠ "" →
      (par = p ∨ pageOf st.g par = some p) →
      Post P st (build_dom_tree P el anc par p d st) (ext_anchors P el))
    (fun cs anc par p d st =>
      Inv P st → p ∈ P → tags_ok_list cs = true → hasNode st.g par = true → par ≠ "" →
      (par = p ∨ pageOf st.g par = some p) →
      Post P st (build_children P cs anc par p d st) (ext_anchors_list P cs))
    ?_ ?_ ?_ ?_ ?_ el anc par p d st
  · -- text node: no step
    intro anc par p d st a hInv _ _ _ _ _
    exact Post_rfl hInv
  · -- skip-listed element: no step
    intro anc par p d st name attrs cs hskip hInv _ _ _ _ _
    have hg : build_dom_tree P (HNode.elem name attrs cs) anc par p d st = st := by
      simp only [build_dom_tree]
      rw [if_pos hskip]
    have ha : ext_anchors P (HNode.elem name attrs cs) = [] := by
      rw [ext_anchors, if_pos hskip]
    rw [hg, ha]
    exact Post_rfl hInv
  · -- visited element: node, edge, anchor handling, then children
    intro anc par p d st name attrs cs hnskip alloc node_id g1 g2 g3 ih
    intro hInv hp htags hpar hpar0 hparp
    have htsplit : tagNameOk name = true ∧ tags_ok_list cs = true := by
      simpa only [tags_ok, Bool.and_eq_true] using htags
    have hg2e : g2 = add_edge g1 par node_id "CONTAINS" none := if_pos hpar0
    obtain ⟨hInv2, hnodes2, hedges2, hcm2, hhn2, hpg2, hview2, hcnt2⟩ :=
      step_node_edge hP hInv hp hpar hparp htsplit.1 node_id
        (mkNodeAttrs (HNode.elem name attrs cs) anc p d)
        { g := g2, counters := alloc.2 } rfl rfl (by rw [hg2e]; rfl)
    have hpost1 : Post P st ({ g := g2, counters := alloc.2 } : BState) [] := by
      refine ⟨hInv2, ⟨_, hnodes2⟩, ⟨_, hedges2⟩, hcm2, ?_, ?_⟩
      · intro u hu
        exact ⟨fun h0 => by rw [hview2 u hu, h0]; rfl,
          fun b hb => by rw [hview2 u hu]; exact hb⟩
      · intro u
        rw [hcnt2 u]
        rfl
    have hpost2 := step_anchor hP hInv2 hp hhn2 (HNode.elem name attrs cs)
      { g := g3, counters := alloc.2 } rfl
    have hpost3 := ih hpost2.1 hp htsplit.2
      (hasNode_extend hpost2.2.1 _ hhn2)
      (mkDomId_ne_empty p name (counterGet st.counters (p, name)))
      (Or.inr (pageOf_extend hpost2.2.1 _ hpg2))
    have htotal := Post_trans (Post_trans hpost1 hpost2) hpost3
    rw [List.nil_append] at htotal
    have hgoal : build_dom_tree P (HNode.elem name attrs cs) anc par p d st
        = build_children P cs (HNode.elem name attrs cs :: anc) node_id p (d + 1)
          { g := g3, counters := alloc.2 } := by
      simp only [build_dom_tree]
      rw [if_neg hnskip]
    rw [hgoal, ext_anchors_eq P name attrs cs hnskip]
    exact htotal
  · -- empty child list
    intro anc par p d st hInv _ _ _ _ _
    exact Post_rfl hInv
  · -- child followed by the rest
    intro anc par p d st c rest st1 ih1 ih2 hInv hp htags hpar hpar0 hparp
    have htsplit : tags_ok c = true ∧ tags_ok_list rest = true := by
      simpa only [tags_ok_list, Bool.and_eq_true] using htags
    have hpostc := ih1 hInv hp htsplit.1 hpar hpar0 hparp
    have hparp1 : par = p ∨
        pageOf (build_dom_tree P c anc par p d st).g par = some p := by
      rcases hparp with h | h
      · exact Or.inl h
      · exact Or.inr (pageOf_extend hpostc.2.1 par h)
    have hpostr := ih2 hpostc.1 hp htsplit.2
      (hasNode_extend hpostc.2.1 par hpar) hpar0 hparp1
    exact Post_trans hpostc hpostr

/-- One page iteration as a `WPost` stage, plus the page-file typing it
establishes. -/
lemma build_page_post {P : List String} (hP : PagesOk P) {st : BState} (hInv : Inv P st)
    (pg : String × HNode) (hq : pg.1 ∈ P) (htags : tags_ok pg.2 = true) :
    WPost P st (build_page P st pg) (ext_anchors_page P pg) ∧
    ∃ a, getNode (build_page P st pg).g pg.1 = some a ∧ a.type = some "Page_File" := by
  have hW1 := WPost_add_pf hP hInv hq (page_title pg.1 pg.2)
  have hhnA : hasNode (add_node st.g pg.1 { type := some "Page_File", title := some (page_title pg.1 pg.2) }) pg.1 = true :=
    hasNode_add_node_self _ _ _
  have hpfA : ∃ a, getNode (add_node st.g pg.1 { type := some "Page_File", title := some (page_title pg.1 pg.2) }) pg.1 = some a ∧ a.type = some "Page_File" := by
    cases hh : hasNode st.g pg.1 with
    | false => exact ⟨_, getNode_add_node_fresh hh _, rfl⟩
    | true =>
      obtain ⟨b, hb⟩ := Option.isSome_iff_exists.mp (by unfold hasNode at hh; exact hh)
      exact ⟨_, getNode_add_node_update hb _, by simp [mergeAttrs]⟩
  have hpost := build_dom_tree_post hP (select_root pg.2).1 (select_root pg.2).2 pg.1 pg.1 0 { st with g := add_node st.g pg.1 { type := some "Page_File", title := some (page_title pg.1 pg.2) } } hW1.1 hq (tags_ok_select_root htags) hhnA (endsHtml_ne_empty (hP pg.1 hq).1) (Or.inl rfl)
  have hbp : build_page P st pg = build_dom_tree P (select_root pg.2).1 (select_root pg.2).2 pg.1 pg.1 0 { st with g := add_node st.g pg.1 { type := some "Page_File", title := some (page_title pg.1 pg.2) } } := rfl
  refine ⟨?_, ?_⟩
  · have hcomp := WPost_trans hW1 (WPost_of_Post hpost)
    rw [List.nil_append] at hcomp
    rw [hbp]
    exact hcomp
  · obtain ⟨a, ha, hat⟩ := hpfA
    obtain ⟨a2, ha2, hat2⟩ := (WPost_of_Post hpost).2.2.2.1 pg.1 a ha hat
    rw [hbp]
    exact ⟨a2, ha2, hat2⟩

/-- The page loop as one `WPost` stage accumulating all external
anchors, typing every processed page's node as `Page_File`. -/
lemma fold_pages_post {P : List String} (hP : PagesOk P) (todo : List (String × HNode)) :
    ∀ (st : BState), Inv P st →
    (∀ pg ∈ todo, pg.1 ∈ P ∧ tags_ok pg.2 = true) →
    WPost P st (todo.foldl (build_page P) st) ((todo.map (ext_anchors_page P)).flatten) ∧
    ∀ pg ∈ todo, ∃ a, getNode (todo.foldl (build_page P) st).g pg.1 = some a ∧
      a.type = some "Page_File" := by
  induction todo with
  | nil =>
    intro st hInv _
    exact ⟨WPost_rfl hInv, fun pg hpg => absurd hpg (List.not_mem_nil pg)⟩
  | cons pg rest ih =>
    intro st hInv hall
    have hhd := hall pg (List.mem_cons_self pg rest)
    obtain ⟨h1, hpf1⟩ := build_page_post hP hInv pg hhd.1 hhd.2
    obtain ⟨hW, hrest⟩ := ih (build_page P st pg) h1.1
      (fun x hx => hall x (List.mem_cons_of_mem pg hx))
    refine ⟨WPost_trans h1 hW, ?_⟩
    intro x hx
    rcases List.mem_cons.mp hx with rfl | hx2
    · obtain ⟨a, ha, hat⟩ := hpf1
      exact hW.2.2.2.1 x.1 a ha hat
    · exact hrest x hx2

/-- Summary of the whole construction on well-formed input: the
invariant holds, every page owns a `Page_File`-typed node, and the
external-page view is exactly first-sighting dedup with per-anchor edge
counts. -/
lemma build_graph_main (pages : List (String × HNode)) (h : wf_input pages) :
    Inv (pages.map (fun p => p.1)) (build_graph pages) ∧
    (∀ pg ∈ pages, ∃ a, getNode (build_graph pages).g pg.1 = some a ∧
      a.type = some "Page_File") ∧
    (∀ u, strStartsWith u "http" = true →
      getNode (build_graph pages).g u
        = ((ext_anchors_to pages u).head?).map (fun a => extAttrs u a.2) ∧
      extCount (build_graph pages).g u = (ext_anchors_to pages u).length) := by
  have hP : PagesOk (pages.map (fun p => p.1)) := by
    intro q hq
    rcases List.mem_map.mp hq with ⟨x, hx, rfl⟩
    exact ⟨(h.2 x hx).1, (h.2 x hx).2.1⟩
  obtain ⟨hW, hpf⟩ := fold_pages_post hP pages {} (Inv_empty _)
    (fun pg hpg => ⟨List.mem_map_of_mem _ hpg, (h.2 pg hpg).2.2.1⟩)
  refine ⟨hW.1, hpf, ?_⟩
  intro u hu
  constructor
  · exact (hW.2.2.2.2.1 u hu).1 rfl
  · rw [show extCount (build_graph pages).g u
        = 0 + (ext_anchors_to pages u).length from hW.2.2.2.2.2 u]
    exact Nat.zero_add _

/-- C5: on any well-formed input (distinct `.html` page files with
collision-safe lower-case tag names and well-formed titles), the
`CONTAINS` edges of the built graph form a tree per page — no `CONTAINS`
edge targets a page-file id, every `CONTAINS` edge targets a node
attributed to a known page and starts at that page's file node or at a
node of the same page, every page-attributed node has exactly one
incoming `CONTAINS` edge, and every input page has a `Page_File` node. -/
theorem c5_contains_tree (pages : List (String × HNode)) (h : wf_input pages) :
    c5Prop pages := by
  obtain ⟨hInv, hpf, _⟩ := build_graph_main pages h
  have hP : PagesOk (pages.map (fun p => p.1)) := by
    intro q hq
    rcases List.mem_map.mp hq with ⟨x, hx, rfl⟩
    exact ⟨(h.2 x hx).1, (h.2 x hx).2.1⟩
  refine ⟨?_, ?_, hpf⟩
  · intro e he hrel
    obtain ⟨q, t, i, hqP, htgt, _, hpage, hsrc⟩ := hInv.contains e he hrel
    refine ⟨?_, q, hqP, hpage, hsrc⟩
    intro hmem
    exact endsHtml_ne_mkDomId (hP e.tgt hmem).1 htgt
  · intro pr hpr q hq
    exact hInv.uniq pr hpr q hq

/-- C5 witness: the single-page input `a.html` with a `mailto:` anchor
is well formed and its graph satisfies the per-page `CONTAINS`-tree
property. -/
theorem c5_witness :
    wf_input [("a.html", mailSoupA)] ∧ c5Prop [("a.html", mailSoupA)] :=
  ⟨by decide, c5_contains_tree [("a.html", mailSoupA)] (by decide)⟩

/-- C6: on any well-formed input, for every `http`-prefixed URL the
built graph stores under that URL exactly the `External_Page` record of
the first external anchor targeting it — `url` the full fragment-stripped
target, `label` that anchor's text, `hostname` the target with its scheme
stripped up to the first path separator — no node at all when no anchor
targets it, never a second node (ids are bound once), and the
`LINKS_TO_EXTERNAL_PAGE` edges onto it number exactly the anchors
targeting it, across same-page and cross-page repetitions alike. -/
theorem c6_external_dedup (pages : List (String × HNode)) (h : wf_input pages) :
    c6Prop pages := by
  obtain ⟨hInv, _, hview⟩ := build_graph_main pages h
  exact ⟨hInv.nodup, hview⟩

/-- C6 witness: three well-formed pages whose anchors target the same
URL (one via a fragment, one through a textless `img`-`alt` anchor)
satisfy the dedup property — one `External_Page` node, three edges, and
the `img` anchor's extracted text is its `alt` value. -/
theorem c6_witness :
    wf_input [("a.html", extSoupA), ("b.html", extSoupB), ("c.html", extSoupC)] ∧
    extract_link_text (HNode.elem "a" [("href", "http://x.com/p")]
      [HNode.elem "img" [("alt", "Logo")] []]) = "Logo" ∧
    c6Prop [("a.html", extSoupA), ("b.html", extSoupB), ("c.html", extSoupC)] :=
  ⟨by decide, by decide,
    c6_external_dedup [("a.html", extSoupA), ("b.html", extSoupB), ("c.html", extSoupC)]
      (by decide)⟩

/-- C1 counterexample: in the graph built from the single page `a.html`
whose one anchor targets `a.html` itself, the anchor's node (which
belongs to page `a.html`) carries a `LINKS_TO_PAGE` edge to the
`Page_File` node of the very page being built — the claim says a
self-targeting anchor produces no such edge. -/
theorem c1_counterexample :
    ({ src := "a.html_a_0", tgt := "a.html", relation := "LINKS_TO_PAGE",
       anchor := some "self" } : Edge) ∈ (build_graph [("a.html", selfLinkSoup)]).g.edges ∧
    (getNode (build_graph [("a.html", selfLinkSoup)]).g "a.html").map (fun a => a.type)
      = some (some "Page_File") ∧
    (getNode (build_graph [("a.html", selfLinkSoup)]).g "a.html_a_0").map (fun a => a.page)
      = some (some "a.html") := by
  decide

/-- C1 amended: for every anchor element whose fragment-stripped target's
last path segment matches a known page id, the builder adds the
`LINKS_TO_PAGE` edge from the anchor's node to that page node with the
truncated anchor text — unconditionally, in particular also when the
target page equals the page currently being built (`page_name` does not
occur in the branch at all). -/
theorem c1_amended (kp : List String) (el : HNode) (node_id page_name : String) (g : Graph)
    (hrefRaw : String)
    (hA : hname el = "a")
    (hHref : getAttr el "href" = some hrefRaw)
    (hKnown : last_segment (frag_strip hrefRaw) ∈ kp) :
    process_anchor kp el node_id page_name g =
      add_edge g node_id (last_segment (frag_strip hrefRaw)) "LINKS_TO_PAGE"
        (some (extract_link_text el)) := by
  unfold process_anchor
  rw [hA, hHref]
  simp only [beq_self_eq_true, if_true]
  rw [if_pos hKnown]

/-- Witness for C1 at the self-link anchor: the target equals the current
page and the edge is still created. -/
theorem c1_witness :
    (hname anchorSelf = "a") ∧ (getAttr anchorSelf "href" = some "a.html") ∧
    (last_segment (frag_strip "a.html") ∈ ["a.html"]) ∧
    process_anchor ["a.html"] anchorSelf "a.html_a_0" "a.html" gW =
      add_edge gW "a.html_a_0" (last_segment (frag_strip "a.html")) "LINKS_TO_PAGE"
        (some (extract_link_text anchorSelf)) :=
  ⟨by decide, by decide, by decide,
    c1_amended ["a.html"] anchorSelf "a.html_a_0" "a.html" gW "a.html"
      (by decide) (by decide) (by decide)⟩

/-- C2 counterexample: page `b.html` has exactly one `mailto:` anchor, so
its single `Data_Link` node is that page's first (and only) `Data_Link`
allocation in both builds below, over identical page content.  Yet its
id is `b.html_DATA_8` when `a.html` is processed first and
`b.html_DATA_3` when `b.html` is alone: the numeric suffix is the global
node count of the whole graph at creation time, so the id cannot be
derived from a page-scoped counter counting only that page's `Data_Link`
allocations. -/
theorem c2_counterexample :
    data_link_ids (build_graph [("a.html", mailSoupA), ("b.html", mailSoupB)]).g
      = ["a.html_DATA_4", "b.html_DATA_8"] ∧
    data_link_ids (build_graph [("b.html", mailSoupB)]).g = ["b.html_DATA_3"] ∧
    ("b.html_DATA_8" : String) ≠ "b.html_DATA_3" := by
  decide

/-- C2 amended: a `mailto:`/`tel:` anchor creates a fresh `Data_Link`
node whose id is `"{page}_DATA_{n}"` with `n` the total node count of
the whole graph at creation time (not a page-scoped counter), carrying
`data_type` = the scheme token, `value` = the full fragment-stripped
target, `label` = the anchor text, plus a `CONTAINS_DATA` edge from the
anchor's node. -/
theorem c2_amended (kp : List String) (el : HNode) (node_id page_name : String) (g : Graph)
    (hrefRaw : String)
    (hA : hname el = "a")
    (hHref : getAttr el "href" = some hrefRaw)
    (hNotPage : last_segment (frag_strip hrefRaw) ∉ kp)
    (hNotHttp : strStartsWith (frag_strip hrefRaw) "http" = false)
    (hNotHttps : strStartsWith (frag_strip hrefRaw) "https" = false)
    (hMail : strStartsWith (frag_strip hrefRaw) "mailto:" = true ∨
      strStartsWith (frag_strip hrefRaw) "tel:" = true)
    (hFresh : hasNode g (page_name ++ "_DATA_" ++ toString g.nodes.length) = false)
    (hSrc : hasNode g node_id = true) :
    (process_anchor kp el node_id page_name g).nodes =
      g.nodes ++ [(page_name ++ "_DATA_" ++ toString g.nodes.length,
        { type := some "Data_Link", data_type := some (scheme_token (frag_strip hrefRaw)),
          value := some (frag_strip hrefRaw), label := some (extract_link_text el) })] ∧
    (process_anchor kp el node_id page_name g).edges =
      g.edges ++ [{ src := node_id
                    tgt := page_name ++ "_DATA_" ++ toString g.nodes.length
                    relation := "CONTAINS_DATA"
                    anchor := some (extract_link_text el) }] := by
  unfold process_anchor
  rw [hA, hHref]
  simp only [beq_self_eq_true, if_true]
  rw [if_neg hNotPage, if_neg (by simp [hNotHttp, hNotHttps]),
    if_pos (by rcases hMail with h | h <;> simp [h])]
  show (add_edge (add_node g (page_name ++ "_DATA_" ++ toString g.nodes.length)
      { type := some "Data_Link", data_type := some (scheme_token (frag_strip hrefRaw)),
        value := some (frag_strip hrefRaw), label := some (extract_link_text el) })
      node_id (page_name ++ "_DATA_" ++ toString g.nodes.length) "CONTAINS_DATA"
      (some (extract_link_text el))).nodes = _ ∧
    (add_edge (add_node g (page_name ++ "_DATA_" ++ toString g.nodes.length)
      { type := some "Data_Link", data_type := some (scheme_token (frag_strip hrefRaw)),
        value := some (frag_strip hrefRaw), label := some (extract_link_text el) })
      node_id (page_name ++ "_DATA_" ++ toString g.nodes.length) "CONTAINS_DATA"
      (some (extract_link_text el))).edges = _
  have hadd : add_node g (page_name ++ "_DATA_" ++ toString g.nodes.length)
      { type := some "Data_Link", data_type := some (scheme_token (frag_strip hrefRaw)),
        value := some (frag_strip hrefRaw), label := some (extract_link_text el) } =
      { g with nodes := g.nodes ++ [(page_name ++ "_DATA_" ++ toString g.nodes.length,
        { type := some "Data_Link", data_type := some (scheme_token (frag_strip hrefRaw)),
          value := some (frag_strip hrefRaw), label := some (extract_link_text el) })] } := by
    unfold add_node
    rw [if_neg (by simp [hFresh])]
  rw [hadd]
  have h1 : hasNode { g with nodes := g.nodes ++ [(page_name ++ "_DATA_" ++ toString g.nodes.length,
      { type := some "Data_Link", data_type := some (scheme_token (frag_strip hrefRaw)),
        value := some (frag_strip hrefRaw), label := some (extract_link_text el) })] }
      node_id = true :=
    hasNode_append g _ node_id hSrc
  have h2 : hasNode { g with nodes := g.nodes ++ [(page_name ++ "_DATA_" ++ toString g.nodes.length,
      { type := some "Data_Link", data_type := some (scheme_token (frag_strip hrefRaw)),
        value := some (frag_strip hrefRaw), label := some (extract_link_text el) })] }
      (page_name ++ "_DATA_" ++ toString g.nodes.length) = true := by
    unfold hasNode
    rw [getNode_append_self g _ _ hFresh]
    rfl
  simp only [add_edge, h1, h2, if_true]
  constructor
  · trivial
  · trivial

/-- Witness for C2 at a concrete `mailto:` anchor on a one-node graph:
the fresh id is `a.html_DATA_1` because the graph already holds one node. -/
theorem c2_witness :
    (hname anchorMail = "a") ∧
    (process_anchor ["a.html"] anchorMail "a.html_a_0" "a.html" gW).nodes =
      gW.nodes ++ [("a.html" ++ "_DATA_" ++ toString gW.nodes.length,
        { type := some "Data_Link", data_type := some (scheme_token (frag_strip "mailto:x@y.z")),
          value := some (frag_strip "mailto:x@y.z"), label := some (extract_link_text anchorMail) })] ∧
    (process_anchor ["a.html"] anchorMail "a.html_a_0" "a.html" gW).edges =
      gW.edges ++ [{ src := "a.html_a_0"
                     tgt := "a.html" ++ "_DATA_" ++ toString gW.nodes.length
                     relation := "CONTAINS_DATA"
                     anchor := some (extract_link_text anchorMail) }] ∧
    extract_link_text (HNode.elem "a" [("href", "mailto:x@y.z")]
      [HNode.elem "img" [("alt", "Mail us")] []]) = "Mail us" :=
  ⟨by decide,
    (c2_amended ["a.html"] anchorMail "a.html_a_0" "a.html" gW "mailto:x@y.z"
      (by decide) (by decide) (by decide) (by decide) (by decide)
      (Or.inl (by decide)) (by decide) (by decide)).1,
    (c2_amended ["a.html"] anchorMail "a.html_a_0" "a.html" gW "mailto:x@y.z"
      (by decide) (by decide) (by decide) (by decide) (by decide)
      (Or.inl (by decide)) (by decide) (by decide)).2,
    by decide⟩

/-- C7: on every non-empty top-k raw-score list, the companion score
normalization maps each raw score into `[0,1]`; whenever the raw-score
range is below the fixed epsilon `1e-8` — in particular whenever all raw
scores are equal — every normalized score equals `1.0`. -/
theorem c7_normalization (raw : List ℚ) (hne : raw ≠ []) :
    (∀ x ∈ normalize_scores raw, 0 ≤ x ∧ x ≤ 1) ∧
    (pymax raw - pymin raw < normEps → normalize_scores raw = raw.map (fun _ => 1)) ∧
    ((∀ a ∈ raw, ∀ b ∈ raw, a = b) → normalize_scores raw = raw.map (fun _ => 1)) := by
  refine ⟨?_, ?_, ?_⟩
  · intro x hx
    unfold normalize_scores at hx
    by_cases hcase : pymax raw - pymin raw < normEps
    · rw [if_pos hcase] at hx
      rcases List.mem_map.mp hx with ⟨s, _, rfl⟩
      norm_num
    · rw [if_neg hcase] at hx
      rcases List.mem_map.mp hx with ⟨s, hs, rfl⟩
      have hminle : pymin raw ≤ s := pymin_le_of_mem hs
      have hlemax : s ≤ pymax raw := le_pymax_of_mem hs
      have heps : (0 : ℚ) < normEps := by norm_num [normEps]
      have hpos : 0 < pymax raw - pymin raw := by
        have := le_of_not_lt hcase
        linarith
      constructor
      · exact div_nonneg (by linarith) (le_of_lt hpos)
      · rw [div_le_one hpos]
        linarith
  · intro h
    unfold normalize_scores
    rw [if_pos h]
  · intro hall
    cases raw with
    | nil => exact absurd rfl hne
    | cons h t =>
      have hteq : ∀ b ∈ t, b = h := fun b hb =>
        hall b (List.mem_cons_of_mem h hb) h (List.mem_cons_self h t)
      have hmin : pymin (h :: t) = h := by
        unfold pymin
        simp only [List.tail_cons, List.headD_cons]
        exact min_foldl_const t h hteq
      have hmax : pymax (h :: t) = h := by
        unfold pymax
        simp only [List.tail_cons, List.headD_cons]
        exact max_foldl_const t h hteq
      unfold normalize_scores
      rw [hmin, hmax, if_pos (by norm_num [normEps])]

/-- Witness for C7 at the all-equal list `[1/2, 1/2, 1/2]`. -/
theorem c7_witness :
    ([(1 : ℚ)/2, 1/2, 1/2] ≠ ([] : List ℚ)) ∧
    ((∀ x ∈ normalize_scores [(1 : ℚ)/2, 1/2, 1/2], 0 ≤ x ∧ x ≤ 1) ∧
     (pymax [(1 : ℚ)/2, 1/2, 1/2] - pymin [(1 : ℚ)/2, 1/2, 1/2] < normEps →
       normalize_scores [(1 : ℚ)/2, 1/2, 1/2] = [(1 : ℚ)/2, 1/2, 1/2].map (fun _ => 1)) ∧
     ((∀ a ∈ [(1 : ℚ)/2, 1/2, 1/2], ∀ b ∈ [(1 : ℚ)/2, 1/2, 1/2], a = b) →
       normalize_scores [(1 : ℚ)/2, 1/2, 1/2] = [(1 : ℚ)/2, 1/2, 1/2].map (fun _ => 1))) :=
  ⟨by decide, c7_normalization [(1 : ℚ)/2, 1/2, 1/2] (by decide)⟩

/-- C3 counterexample: on an index with zero records, `rag_query` and
`find_best_matches` both return the matmul error — they do not return an
empty result sequence, contradicting the claim. -/
theorem c3_counterexample :
    rag_query [] [1] 5 =
      Except.error "matmul: empty corpus gives shape (0,), not aligned with the query" ∧
    find_best_matches [] [1] 10 =
      Except.error "matmul: empty corpus gives shape (0,), not aligned with the query" ∧
    (∀ res : List RagResult, rag_query [] [1] 5 ≠ Except.ok res) := by
  refine ⟨rfl, rfl, fun res h => ?_⟩
  rw [show rag_query [] [1] 5 =
      Except.error "matmul: empty corpus gives shape (0,), not aligned with the query" from rfl] at h
  exact Except.noConfusion h

/-- C3 amended: on an empty persisted index both retrieval calls raise
(the similarity matmul of a shape-`(0,)` embedding array with the query
vector fails in numpy), instead of returning an empty sequence. -/
theorem c3_amended (q : List ℚ) (k : Nat) :
    (∃ e, rag_query [] q k = Except.error e) ∧
    (∃ e, find_best_matches [] q k = Except.error e) :=
  ⟨⟨_, rfl⟩, ⟨_, rfl⟩⟩

/-- A string fold of `(· ++ ·)` pulls its initial value out front. -/
lemma strFoldl_append_init (xs : List String) (a : String) :
    xs.foldl (fun p q => p ++ q) a = a ++ xs.foldl (fun p q => p ++ q) "" := by
  induction xs generalizing a with
  | nil => simp
  | cons x xs ih =>
    simp only [List.foldl_cons]
    rw [ih (a ++ x), ih ("" ++ x), String.empty_append, String.append_assoc]

/-- `strJoin` on a cons. -/
lemma strJoin_cons (x : String) (xs : List String) : strJoin (x :: xs) = x ++ strJoin xs := by
  unfold strJoin
  simp only [List.foldl_cons]
  rw [strFoldl_append_init xs ("" ++ x), String.empty_append]

/-- `strJoin` distributes over append. -/
lemma strJoin_append (l1 l2 : List String) :
    strJoin (l1 ++ l2) = strJoin l1 ++ strJoin l2 := by
  induction l1 with
  | nil =>
    simp only [List.nil_append]
    rw [show strJoin [] = "" from rfl, String.empty_append]
  | cons x xs ih =>
    simp only [List.cons_append]
    rw [strJoin_cons, strJoin_cons, ih, String.append_assoc]

/-- C10 counterexample: for a `div` whose text partly sits inside a
`script` child, the program's `text_snippet` is `"A"` — `html.parser`
stores the script's contents as a `Script` string, which `get_text()`
skips — while the claim's reading (include skip-listed descendants'
text) yields `"A var x=1;"`; the program's attribute differs from the
claimed value at this concrete element. -/
theorem c10_counterexample :
    (mkNodeAttrs divWithScript [] "p.html" 0).text_snippet = some "A" ∧
    strTake (clean_text (spec_text_with_skipped divWithScript)) 150 = "A var x=1;" ∧
    (mkNodeAttrs divWithScript [] "p.html" 0).text_snippet
      ≠ some (strTake (clean_text (spec_text_with_skipped divWithScript)) 150) := by
  refine ⟨by decide, by decide, by decide⟩

/-- C10 amended: the `text_snippet` of every visited element is the
whitespace-normalized `get_text()` of the element truncated to 150
characters, where `get_text()` concatenates the descendant strings
excluding those inside `script`/`style` elements (bs4 with `html.parser`
stores them as `Script`/`Stylesheet` strings that `get_text()` skips);
a skip-listed element itself still produces no node and is not
traversed. -/
theorem c10_amended (name : String) (attrs : List (String × String))
    (children : List HNode) (anc : List HNode) (page : String) (depth : Nat)
    (hskip : name ∉ skipTags) :
    (mkNodeAttrs (HNode.elem name attrs children) anc page depth).text_snippet
      = some (strTake (clean_text (get_text (HNode.elem name attrs children))) 150) ∧
    (∀ m a2 cs2, (m == "script" || m == "style") = true →
      hstrings (HNode.elem m a2 cs2) = []) ∧
    (∀ kp anc2 parent page2 depth2 st sname sattrs schildren, sname ∈ skipTags →
      build_dom_tree kp (HNode.elem sname sattrs schildren) anc2 parent page2 depth2 st
        = st) := by
  refine ⟨?_, ?_, ?_⟩
  · simp only [mkNodeAttrs]
    split_ifs <;> rfl
  · intro m a2 cs2 hm
    simp only [hstrings]
    rw [if_pos hm]
  · intro kp anc2 parent page2 depth2 st sname sattrs schildren hmem
    simp only [build_dom_tree]
    rw [if_pos hmem]

/-- Witness for C10 at the `div`-with-`script` element: the hypothesis
is discharged and the snippet equals the script-free text. -/
theorem c10_witness :
    ("div" ∉ skipTags) ∧
    (mkNodeAttrs divWithScript [] "p.html" 0).text_snippet = some "A" ∧
    ((mkNodeAttrs (HNode.elem "div" [] [HNode.text "A ",
        HNode.elem "script" [] [HNode.text "var x=1;"]]) [] "p.html" 0).text_snippet
      = some (strTake (clean_text (get_text (HNode.elem "div" [] [HNode.text "A ",
          HNode.elem "script" [] [HNode.text "var x=1;"]]))) 150) ∧
     (∀ m a2 cs2, (m == "script" || m == "style") = true →
       hstrings (HNode.elem m a2 cs2) = []) ∧
     (∀ kp anc2 parent page2 depth2 st sname sattrs schildren, sname ∈ skipTags →
       build_dom_tree kp (HNode.elem sname sattrs schildren) anc2 parent page2 depth2 st
         = st)) :=
  ⟨by decide, by decide,
    c10_amended "div" [] [HNode.text "A ", HNode.elem "script" [] [HNode.text "var x=1;"]]
      [] "p.html" 0 (by decide)⟩

/-- A node typed `Page_File` or `External_Page` is never selected. -/
lemma should_embed_false_of_pf_ext (g : Graph) (n : String) (attrs : NodeAttrs)
    (h : attrs.type = some "Page_File" ∨ attrs.type = some "External_Page") :
    should_embed g n attrs = false := by
  unfold should_embed
  rcases h with h | h <;> rw [h] <;> rfl

/-- C8: the embeddable-node selection refuses `Page_File` and
`External_Page` nodes, admits a `DOM_Element` exactly when it touches a
link edge, admits every other type unconditionally — and consequently no
node typed `Page_File` or `External_Page` contributes a document (a
primary context id) to the embedded corpus. -/
theorem c8_selection :
    (∀ (g : Graph) (n : String) (attrs : NodeAttrs),
      (attrs.type = some "Page_File" ∨ attrs.type = some "External_Page") →
      should_embed g n attrs = false) ∧
    (∀ (g : Graph) (n : String) (attrs : NodeAttrs),
      attrs.type = some "DOM_Element" →
      should_embed g n attrs = node_has_link_edges g n) ∧
    (∀ (g : Graph) (n : String) (attrs : NodeAttrs),
      attrs.type ≠ some "Page_File" → attrs.type ≠ some "External_Page" →
      attrs.type ≠ some "DOM_Element" → should_embed g n attrs = true) ∧
    (∀ g : Graph, (g.nodes.map (fun p => p.1)).Nodup →
      ∀ d ∈ docsOf g, ∀ a, getNode g d.id = some a →
        a.type ≠ some "Page_File" ∧ a.type ≠ some "External_Page") := by
  refine ⟨fun g n attrs h => should_embed_false_of_pf_ext g n attrs h, ?_, ?_, ?_⟩
  · intro g n attrs h
    unfold should_embed
    rw [h]
    rfl
  · intro g n attrs h1 h2 h3
    unfold should_embed
    cases htype : attrs.type with
    | none => rfl
    | some t =>
      rw [htype] at h1 h2 h3
      have n1 : t ≠ "Page_File" := fun he => h1 (by rw [he])
      have n2 : t ≠ "External_Page" := fun he => h2 (by rw [he])
      have n3 : t ≠ "DOM_Element" := fun he => h3 (by rw [he])
      simp only [Option.getD_some]
      rw [if_neg (by simp [n1, n2]), if_neg (by simp [n3])]
  · intro g hnodup d hd a ha
    unfold docsOf at hd
    rcases List.mem_filterMap.mp hd with ⟨pr, hpr, hcond⟩
    by_cases hse : should_embed g pr.1 pr.2 = true
    · rw [if_pos hse] at hcond
      by_cases htext : pystrip (build_node_text g pr.1 pr.2) ≠ ""
      · rw [if_pos htext] at hcond
        have hd' := Option.some_inj.mp hcond
        have hid : d.id = pr.1 := by rw [← hd']
        have hgn : getNode g pr.1 = some pr.2 := by
          unfold getNode
          rw [find?_eq_of_nodup g.nodes hnodup pr hpr]
          rfl
        have ha2 : a = pr.2 := by
          rw [hid, hgn] at ha
          exact (Option.some_inj.mp ha).symm
        subst ha2
        constructor
        · intro he
          have hf := should_embed_false_of_pf_ext g pr.1 pr.2 (Or.inl he)
          rw [hf] at hse
          exact Bool.false_ne_true hse
        · intro he
          have hf := should_embed_false_of_pf_ext g pr.1 pr.2 (Or.inr he)
          rw [hf] at hse
          exact Bool.false_ne_true hse
      · rw [if_neg htext] at hcond
        exact absurd hcond (by simp)
    · rw [if_neg hse] at hcond
      exact absurd hcond (by simp)

/-- Witness for C8 on the hand-written graph `g8`, touching all four
selection bullets. -/
theorem c8_witness :
    should_embed g8 "pf" { type := some "Page_File", title := some "T" } = false ∧
    should_embed g8 "dom1" { type := some "DOM_Element", tag := some "a" }
      = node_has_link_edges g8 "dom1" ∧
    should_embed g8 "para" { type := some "Paragraph", full_text := some "hi" } = true ∧
    (∀ d ∈ docsOf g8, ∀ a, getNode g8 d.id = some a →
      a.type ≠ some "Page_File" ∧ a.type ≠ some "External_Page") :=
  ⟨c8_selection.1 g8 "pf" _ (Or.inl rfl),
   c8_selection.2.1 g8 "dom1" _ rfl,
   c8_selection.2.2.1 g8 "para" _ (by decide) (by decide) (by decide),
   c8_selection.2.2.2 g8 (by decide)⟩

/-- The fused heading collection of the source agrees pointwise with the
amended specification line. -/
lemma heading_line_eq_amended (g : Graph) (n : String) :
    heading_line g n = amended_heading_line g n := by
  unfold heading_line amended_heading_line
  by_cases h1 : ((getNode g n).getD {}).type == some "Section_Heading"
  · by_cases h2 : ((getNode g n).getD {}).heading_text.getD "" ≠ ""
    · simp [h1, h2]
    · simp [h1, h2]
  · simp [h1]

/-- The source's fused walk equals the chain-then-filter form of the
amended specification wording, for every fuel, start and state. -/
lemma hcLoop_eq_chain (g : Graph) (fuel : Nat) (cur : String) (visited acc : List String) :
    hcLoop g fuel cur visited acc =
      acc ++ (spec_ancestor_chain g fuel cur visited).filterMap (amended_heading_line g) := by
  induction fuel generalizing cur visited acc with
  | zero => simp [hcLoop, spec_ancestor_chain]
  | succ n ih =>
    unfold hcLoop spec_ancestor_chain
    cases hp : containsPreds g cur with
    | nil => simp
    | cons parent rest =>
      dsimp only
      by_cases hv : parent ∈ visited
      · rw [if_pos hv, if_pos hv]
        simp
      · rw [if_neg hv, if_neg hv]
        rw [List.filterMap_cons, ← heading_line_eq_amended]
        cases hl : heading_line g parent with
        | none =>
          rw [ih]
        | some l =>
          rw [ih]
          simp

/-- C9 counterexample: in the graph built from a page whose empty `h1`
wraps an anchor, the anchor's heading context is empty although its
`Section_Heading` ancestor exists — the walk the claim describes would
record the line `"h1: "` for it.  (The code records a line only when
`heading_text` is non-empty.) -/
theorem c9_counterexample :
    get_heading_context (build_graph [("c.html", emptyHeadingSoup)]).g "c.html_a_0" = [] ∧
    spec_heading_walk (build_graph [("c.html", emptyHeadingSoup)]).g "c.html_a_0" = ["h1: "] ∧
    (getNode (build_graph [("c.html", emptyHeadingSoup)]).g "c.html_h1_0").map
        (fun a => (a.type, a.heading_text))
      = some (some "Section_Heading", some "") := by
  refine ⟨by decide, by decide, by decide⟩

/-- C9 amended: the heading-hierarchy section of every node's context is
exactly the specified upward `CONTAINS` walk — at most one predecessor
per step, stop at the first repeated ancestor or when no predecessor
exists, reverse to outermost-first — but a line is recorded only for
`Section_Heading` ancestors with non-empty `heading_text` (with `"h?"`
substituted for a missing tag). -/
theorem c9_amended (g : Graph) (node : String) :
    get_heading_context g node = amended_heading_walk g node := by
  unfold get_heading_context amended_heading_walk
  rw [hcLoop_eq_chain]
  simp

end Scraper
